import Mathlib

/-!
Verification development for the MarkovJuniorWeb rewrite engine.

The embedding covers the rewrite-node matcher of `src/nodes/rule.ts`
(full and incremental rescan, the `matches`/`matchMask` bookkeeping of
`RuleNode.add`), the control flow of `RuleNode.run` (step limit,
observations, search coroutine, fields) and of `RuleNode.load`
(the `search` attribute), and the top-level driver `Main`.

Collaborator code that the repository keeps in files outside the sources at
hand (grid.ts, rule.ts, observation.ts, search.ts, interpreter.ts) is either
modelled from the specification (grid.matches, rule.ishifts, the interpreter
step function) or abstracted as oracle parameters (future-set computation,
backward potentials, the search generator, field computation outcomes).
-/

namespace MarkovJunior

/-- Run states of a node: `RunState` in `src/nodes/index`. -/
inductive RunState where
  | SUCCESS
  | FAIL
  | HALT
deriving DecidableEq, Repr

/-- The slice of the `Rule` record (rule.ts) that the matcher reads: input
bounding box `IMX, IMY, IMZ` and the per-cell bitmasks `input`. -/
structure Rule where
  IMX : Nat
  IMY : Nat
  IMZ : Nat
  input : List Nat
deriving DecidableEq, Repr

instance : Inhabited Rule := ⟨⟨0, 0, 0, []⟩⟩

/-- The slice of the `Grid` record (grid.ts) that the matcher reads. -/
structure Grid where
  MX : Nat
  MY : Nat
  MZ : Nat
  state : List Nat
deriving DecidableEq, Repr

/-- The linearised index `x + y*MX + z*MX*MY` used throughout rule.ts. -/
def cellIdx (g : Grid) (x y z : Nat) : Nat :=
  x + y * g.MX + z * g.MX * g.MY

/-- `grid.state[x + y*MX + z*MX*MY]`. -/
def gridAt (g : Grid) (x y z : Nat) : Nat :=
  g.state.getD (cellIdx g x y z) 0

/-- The linearised index of an input-pattern cell of a rule. -/
def Rule.pos (rule : Rule) (i j k : Nat) : Nat :=
  i + j * rule.IMX + k * rule.IMX * rule.IMY

/-- Modelled from the spec: `grid.matches(rule, x, y, z)` (grid.ts is not
among the given sources) returns true iff for every input cell `(i,j,k)` of
the rule, the input bitmask at that cell accepts the grid value under it
(spec section 4.1). -/
def Grid.matches (g : Grid) (rule : Rule) (x y z : Nat) : Bool :=
  decide (∀ k < rule.IMZ, ∀ j < rule.IMY, ∀ i < rule.IMX,
    ((rule.input.getD (rule.pos i j k) 0).testBit (gridAt g (x + i) (y + j) (z + k)) = true))

/-- Modelled from the spec: `rule.ishifts[v]` (rule.ts is not among the given
sources) is the list of offsets `(dx,dy,dz)` within the input pattern at
which value `v` appears, i.e. at which the input bitmask accepts `v`
(spec section 3). -/
def Rule.ishifts (rule : Rule) (v : Nat) : List (Nat × Nat × Nat) :=
  ((List.range rule.IMX).product ((List.range rule.IMY).product (List.range rule.IMZ))).filter
    fun s => (rule.input.getD (rule.pos s.1 s.2.1 s.2.2) 0).testBit v

/-- The cells visited by one stride loop `for (c = im - 1; c < m; c += im)`
of the full rescan. -/
def strideList (im m : Nat) : List Nat :=
  (List.range (m / im)).map fun t => (t + 1) * im - 1

/-- `rules[r]` (reads of the rule list are always in bounds in the source). -/
def ruleAt (rules : List Rule) (r : Nat) : Rule :=
  rules.getD r default

/-- A match entry `(r, x, y, z)` is valid when the rule index is in range,
the anchor box fits in bounds, and `grid.matches` holds. -/
def isValidMatch (g : Grid) (rules : List Rule) (m : Nat × Nat × Nat × Nat) : Bool :=
  decide (m.1 < rules.length) &&
  decide (m.2.1 + (ruleAt rules m.1).IMX ≤ g.MX) &&
  decide (m.2.2.1 + (ruleAt rules m.1).IMY ≤ g.MY) &&
  decide (m.2.2.2 + (ruleAt rules m.1).IMZ ≤ g.MZ) &&
  g.matches (ruleAt rules m.1) m.2.1 m.2.2.1 m.2.2.2

/-- The matcher state of a rewrite node: the dense match list
`matches[0..matchCount)` (as a list of `(r,x,y,z)` quads) and the per-rule
bit grid `matchMask` (as the list of set `(r, cell-index)` bits). -/
structure MatchState where
  matchList : List (Nat × Nat × Nat × Nat)
  mask : List (Nat × Nat)
deriving DecidableEq, Repr

/-- `matchMask[r].get(i)`. -/
def maskGet (st : MatchState) (r i : Nat) : Bool :=
  decide ((r, i) ∈ st.mask)

/-- `RuleNode.add(r, x, y, z, maskr)` (rule.ts lines 161-188): set the mask
bit at the anchor's cell index and append the quad to the match list. -/
def MatchState.add (st : MatchState) (g : Grid) (r x y z : Nat) : MatchState :=
  { matchList := st.matchList ++ [(r, x, y, z)]
    mask := (r, cellIdx g x y z) :: st.mask }

/-- One candidate shift of the full rescan at visited cell `(x,y,z)` for rule
`r`: the anchor `(x,y,z) - s`, kept when the bounds checks and
`grid.matches` pass (rule.ts lines 318-334). -/
def scanHit (g : Grid) (rules : List Rule) (r x y z : Nat) (s : Nat × Nat × Nat) :
    Option (Nat × Nat × Nat × Nat) :=
  if s.1 ≤ x ∧ s.2.1 ≤ y ∧ s.2.2 ≤ z ∧
     x - s.1 + (ruleAt rules r).IMX ≤ g.MX ∧
     y - s.2.1 + (ruleAt rules r).IMY ≤ g.MY ∧
     z - s.2.2 + (ruleAt rules r).IMZ ≤ g.MZ ∧
     g.matches (ruleAt rules r) (x - s.1) (y - s.2.1) (z - s.2.2) = true
  then some (r, x - s.1, y - s.2.1, z - s.2.2) else none

/-- All matches contributed by visited cell `(x,y,z)` for rule `r` in the
full rescan. -/
def scanCell (g : Grid) (rules : List Rule) (r x y z : Nat) : List (Nat × Nat × Nat × Nat) :=
  ((ruleAt rules r).ishifts (gridAt g x y z)).filterMap (scanHit g rules r x y z)

/-- The list of quads produced by the full rescan (rule.ts lines 308-337):
for each rule, stride the grid in steps of `(IMX, IMY, IMZ)` and enumerate
anchors through `ishifts`. -/
def fullScanList (g : Grid) (rules : List Rule) : List (Nat × Nat × Nat × Nat) :=
  (List.range rules.length).flatMap fun r =>
    (strideList (ruleAt rules r).IMZ g.MZ).flatMap fun z =>
      (strideList (ruleAt rules r).IMY g.MY).flatMap fun y =>
        (strideList (ruleAt rules r).IMX g.MX).flatMap fun x =>
          scanCell g rules r x y z

/-- One step of the innermost full-rescan loop: add the anchor when the
bounds checks and `grid.matches` pass (no mask check in the full branch). -/
def fullStep (g : Grid) (rules : List Rule) (r x y z : Nat) (st : MatchState)
    (s : Nat × Nat × Nat) : MatchState :=
  match scanHit g rules r x y z s with
  | some m => st.add g m.1 m.2.1 m.2.2.1 m.2.2.2
  | none => st

/-- The shifts loop of the full rescan at one visited cell. -/
def fullCell (g : Grid) (rules : List Rule) (r x y z : Nat) (st : MatchState) : MatchState :=
  ((ruleAt rules r).ishifts (gridAt g x y z)).foldl (fullStep g rules r x y z) st

/-- The `x` stride loop of the full rescan. -/
def fullX (g : Grid) (rules : List Rule) (r y z : Nat) (st : MatchState) : MatchState :=
  (strideList (ruleAt rules r).IMX g.MX).foldl (fun st x => fullCell g rules r x y z st) st

/-- The `y` stride loop of the full rescan. -/
def fullY (g : Grid) (rules : List Rule) (r z : Nat) (st : MatchState) : MatchState :=
  (strideList (ruleAt rules r).IMY g.MY).foldl (fun st y => fullX g rules r y z st) st

/-- The `z` stride loop of the full rescan. -/
def fullZ (g : Grid) (rules : List Rule) (r : Nat) (st : MatchState) : MatchState :=
  (strideList (ruleAt rules r).IMZ g.MZ).foldl (fun st z => fullY g rules r z st) st

/-- The full rescan branch of `RuleNode.run` (rule.ts lines 308-337):
`matchCount = 0`, then for each rule stride the grid and add every anchor
that fits and matches.  The mask is written by `add` but never consulted
or cleared here. -/
def fullRescan (g : Grid) (rules : List Rule) (st : MatchState) : MatchState :=
  (List.range rules.length).foldl (fun st r => fullZ g rules r st) { st with matchList := [] }

/-- One step of the incremental rescan at changed cell `c` for rule `r` and
shift `s` (rule.ts lines 287-305): compute the anchor, check bounds, the
mask bit and `grid.matches`, then add. -/
def incShift (g : Grid) (rules : List Rule) (r : Nat) (c : Nat × Nat × Nat)
    (st : MatchState) (s : Nat × Nat × Nat) : MatchState :=
  if s.1 ≤ c.1 ∧ s.2.1 ≤ c.2.1 ∧ s.2.2 ≤ c.2.2 ∧
     c.1 - s.1 + (ruleAt rules r).IMX ≤ g.MX ∧
     c.2.1 - s.2.1 + (ruleAt rules r).IMY ≤ g.MY ∧
     c.2.2 - s.2.2 + (ruleAt rules r).IMZ ≤ g.MZ ∧
     maskGet st r (cellIdx g (c.1 - s.1) (c.2.1 - s.2.1) (c.2.2 - s.2.2)) = false ∧
     g.matches (ruleAt rules r) (c.1 - s.1) (c.2.1 - s.2.1) (c.2.2 - s.2.2) = true
  then st.add g r (c.1 - s.1) (c.2.1 - s.2.1) (c.2.2 - s.2.2) else st

/-- The incremental rescan work done for one rule at one changed cell. -/
def incRule (g : Grid) (rules : List Rule) (c : Nat × Nat × Nat)
    (st : MatchState) (r : Nat) : MatchState :=
  ((ruleAt rules r).ishifts (gridAt g c.1 c.2.1 c.2.2)).foldl (incShift g rules r c) st

/-- The incremental rescan work done for one changed cell (rule.ts lines
281-306): read its new value and consult `ishifts` of every rule. -/
def incCell (g : Grid) (rules : List Rule) (st : MatchState)
    (c : Nat × Nat × Nat) : MatchState :=
  (List.range rules.length).foldl (incRule g rules c) st

/-- The incremental rescan branch of `RuleNode.run` (rule.ts lines 274-307):
process every changed cell in `changes[first[lastMatchedTurn] .. end]`. -/
def incScan (g : Grid) (rules : List Rule) (changes : List (Nat × Nat × Nat))
    (st : MatchState) : MatchState :=
  changes.foldl (incCell g rules) st

/-- The match-refresh portion of `RuleNode.run` (rule.ts lines 274-338):
incremental when `lastMatchedTurn >= 0`, full otherwise. -/
def runScan (g : Grid) (rules : List Rule) (changes : List (Nat × Nat × Nat))
    (lastMatchedTurn : Int) (st : MatchState) : MatchState :=
  if 0 ≤ lastMatchedTurn then incScan g rules changes st else fullRescan g rules st

/-- The result of one `next()` call on the search generator `Search.run`
(search.ts is not among the given sources; the generator yields integer
progress payloads and finally returns a trajectory, `none` standing for a
missing/empty trajectory, spec section 4.6). -/
inductive SearchYield where
  | yielded : Int → SearchYield
  | done : Option (List (List Nat)) → SearchYield
deriving DecidableEq, Repr

/-- The loop `for (let _ = 0; _ < 256; _++) { result = this.searching.next();
if (result.done) break; }` (rule.ts lines 250-253).  `gen k` is the result of
the `next()` call made when the generator cursor is at `k`; the function
returns the new cursor and the last `result`. -/
def searchLoop (gen : Nat → SearchYield) : Nat → Nat → SearchYield → Nat × SearchYield
  | pos, 0, res => (pos, res)
  | pos, fuel + 1, _ =>
    match gen pos with
    | SearchYield.done t => (pos + 1, SearchYield.done t)
    | SearchYield.yielded n => searchLoop gen (pos + 1) fuel (SearchYield.yielded n)

/-- Lines 249-253 of rule.ts: one unconditional `next()` followed by the
bounded loop. -/
def advanceSearch (gen : Nat → SearchYield) (k : Nat) : Nat × SearchYield :=
  searchLoop gen (k + 1) 256 (gen k)

/-- The slice of a `Field` (field.ts) that `RuleNode.run` reads, with the
outcome of `field.compute` on the current grid abstracted as `success`. -/
structure FieldSpec where
  recompute : Bool
  essential : Bool
  success : Bool
deriving DecidableEq, Repr

/-- The field loop of `RuleNode.run` (rule.ts lines 340-353), returning the
indices of the fields computed this call and whether the node survives
(false = FAIL). -/
def fieldsLoop (counter : Nat) : Nat → List (Option FieldSpec) → Bool → Bool → List Nat →
    List Nat × Bool
  | _, [], anysuccess, anycomputation, acc =>
    (acc.reverse, !(anycomputation && !anysuccess))
  | c, none :: rest, anysuccess, anycomputation, acc =>
    fieldsLoop counter (c + 1) rest anysuccess anycomputation acc
  | c, some f :: rest, anysuccess, anycomputation, acc =>
    if counter = 0 ∨ f.recompute = true then
      if f.success = false ∧ f.essential = true then ((c :: acc).reverse, false)
      else fieldsLoop counter (c + 1) rest (anysuccess || f.success) true (c :: acc)
    else fieldsLoop counter (c + 1) rest anysuccess anycomputation acc

/-- `for (let c = 0; c < this.fields.length; c++) ...` of rule.ts. -/
def runFields (counter : Nat) (fields : List (Option FieldSpec)) : List Nat × Bool :=
  fieldsLoop counter 0 fields false false []

/-- The mutable state of a `RuleNode` read or written by `run`, `reset` and
`load` (rule.ts).  `fields = []` models a node without field elements;
`searching = some k` models a live search generator whose cursor is `k`
(`none`: no generator).  The numeric contents of `potentials` and the grid
writes of `field.compute` are abstracted. -/
structure RuleNodeState where
  steps : Int
  counter : Nat
  last : List Nat
  hasObservations : Bool
  search : Bool
  futureComputed : Bool
  future : List Nat
  potentials : Option (List (List Int))
  searching : Option Nat
  visited : Int
  searchTries : Nat
  trajectory : Option (List (List Nat))
  matchState : MatchState
  lastMatchedTurn : Int
  fields : List (Option FieldSpec)
deriving DecidableEq, Repr

/-- `if (this.steps > 0 && this.counter >= this.steps)` (rule.ts line 194). -/
def stepLimitReached (node : RuleNodeState) : Bool :=
  decide (0 < node.steps ∧ node.steps ≤ (node.counter : Int))

/-- `RuleNode.reset` (rule.ts lines 154-159). -/
def RuleNodeState.reset (node : RuleNodeState) : RuleNodeState :=
  { node with
    lastMatchedTurn := -1
    counter := 0
    futureComputed := false
    last := node.last.map fun _ => 0 }

/-- The tail of `RuleNode.run`: refresh the matches (lines 274-338), then the
field computations (lines 340-353), then SUCCESS. -/
def runMatchFields (g : Grid) (rules : List Rule) (changes : List (Nat × Nat × Nat))
    (node : RuleNodeState) : RuleNodeState × RunState × List Nat :=
  let node1 := { node with
    matchState := runScan g rules changes node.lastMatchedTurn node.matchState }
  let fr := runFields node1.counter node1.fields
  (node1, if fr.2 then RunState.SUCCESS else RunState.FAIL, fr.1)

/-- Lines 249-270 of rule.ts: advance the search generator from cursor `k`;
HALT with the progress payload in `visited` if not done, FAIL (counting a
search try) if done without trajectory, else store the trajectory, mark the
future computed and continue with the match refresh. -/
def runSearchAdvance (g : Grid) (rules : List Rule) (changes : List (Nat × Nat × Nat))
    (gen : Nat → SearchYield) (node : RuleNodeState) (k : Nat) :
    RuleNodeState × RunState × List Nat :=
  match advanceSearch gen k with
  | (k', SearchYield.yielded n) =>
    ({ node with searching := some k', visited := n }, RunState.HALT, [])
  | (_, SearchYield.done none) =>
    ({ node with
        searching := none
        trajectory := none
        searchTries := node.searchTries + 1 }, RunState.FAIL, [])
  | (_, SearchYield.done (some traj)) =>
    runMatchFields g rules changes
      { node with searching := none, trajectory := some traj, futureComputed := true }

/-- `RuleNode.run` after the step-limit check (rule.ts lines 199-356).
`computeFut` is the oracle for `Observation.computeFutureSetPresent` on the
current grid (`none`: unsatisfiable, else the future set it writes);
`backPot` the oracle for `Observation.computeBackwardPotentials` on the
pre-refresh state; `gen` the search generator. -/
def runAfterLimit (g : Grid) (rules : List Rule) (changes : List (Nat × Nat × Nat))
    (computeFut : Option (List Nat)) (backPot : List (List Int))
    (gen : Nat → SearchYield) (node : RuleNodeState) : RuleNodeState × RunState × List Nat :=
  if node.hasObservations = true ∧ node.futureComputed = false then
    if node.search = false then
      match computeFut with
      | none => (node, RunState.FAIL, [])
      | some f =>
        runMatchFields g rules changes
          { node with future := f, futureComputed := true, potentials := some backPot }
    else
      match node.searching with
      | some k => runSearchAdvance g rules changes gen node k
      | none =>
        match computeFut with
        | none => (node, RunState.FAIL, [])
        | some f =>
          runSearchAdvance g rules changes gen
            { node with future := f, trajectory := none, searching := some 0 } 0
  else runMatchFields g rules changes node

/-- `RuleNode.run` (rule.ts lines 190-357): clear `last`, check the step
limit, then the observation/search block, match refresh and fields.  The
third component of the result lists the indices of the fields computed
during the call. -/
def runNode (g : Grid) (rules : List Rule) (changes : List (Nat × Nat × Nat))
    (computeFut : Option (List Nat)) (backPot : List (List Int))
    (gen : Nat → SearchYield) (node : RuleNodeState) : RuleNodeState × RunState × List Nat :=
  let node0 := { node with last := node.last.map fun _ => 0 }
  if stepLimitReached node0 = true then (node0, RunState.FAIL, [])
  else runAfterLimit g rules changes computeFut backPot gen node0

/-- `parseInt(elem.getAttribute("steps")) || 0` (rule.ts line 96): `none`
models a missing or non-numeric attribute. -/
def loadSteps (attr : Option Int) : Int :=
  match attr with
  | none => 0
  | some v => v

/-- The observation-dependent part of `RuleNode.load` (rule.ts lines
117-149), restricted to what it decides: the `search` flag and whether a
`potentials` buffer exists afterwards (`potentialsFromFields`: a field
section already allocated one). -/
structure ObserveLoad where
  search : Bool
  potentialsAllocated : Bool
deriving DecidableEq, Repr

/-- `this.search = elem.getAttribute("search") === "True"; if (this.search)
{...} else if (!this.potentials) { this.potentials = new Array2D(...) }`. -/
def loadObserve (searchAttr : Option String) (potentialsFromFields : Bool) : ObserveLoad :=
  { search := decide (searchAttr = some "True")
    potentialsAllocated :=
      if decide (searchAttr = some "True") = true then potentialsFromFields else true }

/-- A snapshot yielded by the interpreter to the driver. -/
structure Snapshot where
  state : List Nat
  legend : String
  FX : Nat
  FY : Nat
  FZ : Nat
deriving DecidableEq, Repr

/-- Modelled from the spec: the interpreter (interpreter.ts is not among the
given sources) is a deterministic step function threading the grid state and
the seeded PRNG state (spec sections 4.7 and 5); `step` returns `none` once
the root has terminated, otherwise the new state and the emitted snapshot. -/
structure IpProgram where
  init : List Nat
  step : List Nat → Nat → Option ((List Nat × Nat) × Snapshot)

/-- The render loop of `Main` (part_000 lines 79-101): drain the snapshots of
`interpreter.run(seed, steps)`, rendering only every `speed`-th one and
awaiting `frame(delay)`; `ft` is the environment's frame-timing function.
Returns the snapshot sequence, the rendered counter and the accumulated
time. -/
def mainLoop (P : IpProgram) (speed delay : Nat) (ft : Nat → Nat) :
    Nat → List Nat → Nat → Nat → Nat → List Snapshot × Nat × Nat
  | 0, _, _, rendered, time => ([], rendered, time)
  | fuel + 1, st, rng, rendered, time =>
    match P.step st rng with
    | none => ([], rendered, time)
    | some ((st', rng'), snap) =>
      let rest := mainLoop P speed delay ft fuel st' rng' (rendered + 1)
        (time + (if rendered % speed = 0 then ft rendered + delay else 0))
      (snap :: rest.1, rest.2.1, rest.2.2)

/-- One `Main` iteration for a model: run the interpreter from `seed` for at
most `steps` outer steps under environment parameters `(speed, delay, ft)`. -/
def mainRun (P : IpProgram) (seed : Nat) (steps : Nat) (speed delay : Nat)
    (ft : Nat → Nat) : List Snapshot × Nat × Nat :=
  mainLoop P speed delay ft steps P.init seed 0 0

/-- Multiset multiplicity of a quad in a match list (the key `(r,x,y,z)`). -/
def countQuad (l : List (Nat × Nat × Nat × Nat)) (m : Nat × Nat × Nat × Nat) : Nat :=
  (l.filter fun a => decide (a = m)).length

/-- The `(r, cell-index)` mask key of a match entry. -/
def quadKey (g : Grid) (m : Nat × Nat × Nat × Nat) : Nat × Nat :=
  (m.1, cellIdx g m.2.1 m.2.2.1 m.2.2.2)

/-- A match entry with an in-range rule index whose anchor box fits. -/
def boundedMatch (g : Grid) (rules : List Rule) (m : Nat × Nat × Nat × Nat) : Prop :=
  m.1 < rules.length ∧
  m.2.1 + (ruleAt rules m.1).IMX ≤ g.MX ∧
  m.2.2.1 + (ruleAt rules m.1).IMY ≤ g.MY ∧
  m.2.2.2 + (ruleAt rules m.1).IMZ ≤ g.MZ

/-- The mask is exactly the set of keys of the match list. -/
def MaskInv (g : Grid) (st : MatchState) : Prop :=
  ∀ p, p ∈ st.mask ↔ ∃ m ∈ st.matchList, p = quadKey g m

/-- The matcher-state invariant maintained by the incremental rescan. -/
def ScanInv (g : Grid) (rules : List Rule) (st : MatchState) : Prop :=
  (∀ m ∈ st.matchList, boundedMatch g rules m) ∧ st.matchList.Nodup ∧ MaskInv g st

/-- The incremental-rescan invariant relative to the entry state `st0`:
the matcher-state invariant, plus: every entry is an old entry or a valid
match of the current grid. -/
def IncInv (g : Grid) (rules : List Rule) (st0 st : MatchState) : Prop :=
  ScanInv g rules st ∧
  (∀ m ∈ st.matchList, m ∈ st0.matchList ∨ isValidMatch g rules m = true)

/-- Every entry of the match list has its `matchMask` bit set. -/
def MaskCovers (g : Grid) (st : MatchState) : Prop :=
  ∀ m ∈ st.matchList, quadKey g m ∈ st.mask

/-! ### Basic lemmas about the matcher ingredients -/

lemma ruleAt_mem {rules : List Rule} {r : Nat} (h : r < rules.length) :
    ruleAt rules r ∈ rules := by
  unfold ruleAt
  rw [List.getD_eq_getElem rules default h]
  exact List.getElem_mem h

lemma matches_iff {g : Grid} {rule : Rule} {x y z : Nat} :
    Grid.matches g rule x y z = true ↔
      ∀ k < rule.IMZ, ∀ j < rule.IMY, ∀ i < rule.IMX,
        (rule.input.getD (rule.pos i j k) 0).testBit (gridAt g (x + i) (y + j) (z + k)) = true := by
  simp [Grid.matches]

lemma mem_ishifts {rule : Rule} {v : Nat} {s : Nat × Nat × Nat} :
    s ∈ rule.ishifts v ↔
      s.1 < rule.IMX ∧ s.2.1 < rule.IMY ∧ s.2.2 < rule.IMZ ∧
      (rule.input.getD (rule.pos s.1 s.2.1 s.2.2) 0).testBit v = true := by
  obtain ⟨dx, dy, dz⟩ := s
  simp [Rule.ishifts, List.mem_filter, List.pair_mem_product, and_assoc]

lemma nodup_ishifts (rule : Rule) (v : Nat) : (rule.ishifts v).Nodup :=
  List.Nodup.filter _
    (((List.nodup_range _).product ((List.nodup_range _).product (List.nodup_range _))))

lemma mem_strideList {im m x : Nat} (him : 0 < im) :
    x ∈ strideList im m ↔ x < m ∧ (x + 1) % im = 0 := by
  unfold strideList
  simp only [List.mem_map, List.mem_range]
  constructor
  · rintro ⟨t, ht, rfl⟩
    have h1 : (t + 1) * im ≤ m := (Nat.le_div_iff_mul_le him).mp ht
    have h2 : 0 < (t + 1) * im := Nat.mul_pos (Nat.succ_pos t) him
    refine ⟨by omega, ?_⟩
    have h3 : (t + 1) * im - 1 + 1 = (t + 1) * im := by omega
    rw [h3, Nat.mul_mod_left]
  · rintro ⟨hxm, hmod⟩
    obtain ⟨q, hq⟩ := Nat.dvd_of_mod_eq_zero hmod
    have hq1 : 1 ≤ q := by
      rcases Nat.eq_zero_or_pos q with h | h
      · subst h; omega
      · exact h
    have hqm : q * im ≤ m := by rw [Nat.mul_comm, ← hq]; omega
    have hdiv : q ≤ m / im := (Nat.le_div_iff_mul_le him).mpr hqm
    refine ⟨q - 1, by omega, ?_⟩
    have h4 : q - 1 + 1 = q := by omega
    rw [h4, Nat.mul_comm, ← hq]
    omega

lemma stride_window_unique {im a x1 x2 : Nat}
    (h1 : (x1 + 1) % im = 0) (h2 : (x2 + 1) % im = 0)
    (hw1 : a ≤ x1) (hw1' : x1 < a + im) (hw2 : a ≤ x2) (hw2' : x2 < a + im) :
    x1 = x2 := by
  obtain ⟨p, hp⟩ := Nat.dvd_of_mod_eq_zero h1
  obtain ⟨q, hq⟩ := Nat.dvd_of_mod_eq_zero h2
  have hpq : p = q := by
    have h3 : im * p < im * (q + 1) := by
      have hx2 : x2 + im < im * (q + 1) := by rw [Nat.mul_add, Nat.mul_one]; omega
      omega
    have h4 : im * q < im * (p + 1) := by
      have hx1 : x1 + im < im * (p + 1) := by rw [Nat.mul_add, Nat.mul_one]; omega
      omega
    have h5 := Nat.lt_of_mul_lt_mul_left h3
    have h6 := Nat.lt_of_mul_lt_mul_left h4
    omega
  subst hpq
  omega

lemma nodup_strideList {im m : Nat} : (strideList im m).Nodup := by
  unfold strideList
  rcases Nat.eq_zero_or_pos im with h | h
  · subst h; simp [List.map]
  · refine List.Nodup.map ?_ (List.nodup_range _)
    intro a b hab
    dsimp only at hab
    have ha : 0 < (a + 1) * im := Nat.mul_pos (Nat.succ_pos a) h
    have hb : 0 < (b + 1) * im := Nat.mul_pos (Nat.succ_pos b) h
    have : (a + 1) * im = (b + 1) * im := by omega
    have := Nat.eq_of_mul_eq_mul_right h this
    omega

/-! ### The contribution of one visited cell -/

lemma mem_scanCell {g : Grid} {rules : List Rule} {r x y z : Nat} {m : Nat × Nat × Nat × Nat} :
    m ∈ scanCell g rules r x y z ↔
      ∃ sx sy sz, m = (r, sx, sy, sz) ∧
        sx ≤ x ∧ x < sx + (ruleAt rules r).IMX ∧
        sy ≤ y ∧ y < sy + (ruleAt rules r).IMY ∧
        sz ≤ z ∧ z < sz + (ruleAt rules r).IMZ ∧
        sx + (ruleAt rules r).IMX ≤ g.MX ∧
        sy + (ruleAt rules r).IMY ≤ g.MY ∧
        sz + (ruleAt rules r).IMZ ≤ g.MZ ∧
        Grid.matches g (ruleAt rules r) sx sy sz = true := by
  constructor
  · intro hm
    obtain ⟨s, hs, hhit⟩ := List.mem_filterMap.mp hm
    obtain ⟨hdx, hdy, hdz, _hbit⟩ := mem_ishifts.mp hs
    unfold scanHit at hhit
    split at hhit
    · rename_i hc
      obtain ⟨h1, h2, h3, h4, h5, h6, h7⟩ := hc
      obtain rfl : (r, x - s.1, y - s.2.1, z - s.2.2) = m := Option.some.inj hhit
      exact ⟨x - s.1, y - s.2.1, z - s.2.2, rfl, by omega, by omega, by omega, by omega,
        by omega, by omega, h4, h5, h6, h7⟩
    · cases hhit
  · rintro ⟨sx, sy, sz, rfl, h1, h2, h3, h4, h5, h6, h7, h8, h9, h10⟩
    apply List.mem_filterMap.mpr
    refine ⟨(x - sx, y - sy, z - sz), ?_, ?_⟩
    · apply mem_ishifts.mpr
      refine ⟨show x - sx < (ruleAt rules r).IMX by omega,
              show y - sy < (ruleAt rules r).IMY by omega,
              show z - sz < (ruleAt rules r).IMZ by omega, ?_⟩
      show ((ruleAt rules r).input.getD ((ruleAt rules r).pos (x - sx) (y - sy) (z - sz)) 0).testBit
            (gridAt g x y z) = true
      have hmatch := matches_iff.mp h10 (z - sz) (by omega) (y - sy) (by omega) (x - sx) (by omega)
      have hx : sx + (x - sx) = x := by omega
      have hy : sy + (y - sy) = y := by omega
      have hz : sz + (z - sz) = z := by omega
      rwa [hx, hy, hz] at hmatch
    · show scanHit g rules r x y z (x - sx, y - sy, z - sz) = some (r, sx, sy, sz)
      unfold scanHit
      dsimp only
      have e1 : x - (x - sx) = sx := by omega
      have e2 : y - (y - sy) = sy := by omega
      have e3 : z - (z - sz) = sz := by omega
      rw [e1, e2, e3]
      rw [if_pos ⟨by omega, by omega, by omega, h7, h8, h9, h10⟩]

lemma nodup_scanCell {g : Grid} {rules : List Rule} {r x y z : Nat} :
    (scanCell g rules r x y z).Nodup := by
  apply List.Nodup.filterMap ?_ (nodup_ishifts _ _)
  rintro ⟨a, b, c⟩ ⟨a', b', c'⟩ m hm hm'
  unfold scanHit at hm hm'
  split at hm
  · rename_i hc
    obtain rfl := Option.some.inj hm
    split at hm'
    · rename_i hc'
      have he := Option.some.inj hm'
      simp only [Prod.mk.injEq] at he hc hc' ⊢
      omega
    · cases hm'
  · cases hm

/-! ### The full rescan visits exactly the valid anchors -/

lemma stride_cover {im m sx : Nat} (him : 0 < im) (hb : sx + im ≤ m) :
    ∃ x ∈ strideList im m, sx ≤ x ∧ x < sx + im := by
  have hdm : im * (sx / im) + sx % im = sx := Nat.div_add_mod sx im
  have hmod : sx % im < im := Nat.mod_lt _ him
  refine ⟨im * (sx / im) + (im - 1), (mem_strideList him).mpr ⟨by omega, ?_⟩, by omega, by omega⟩
  have h1 : im * (sx / im) + (im - 1) + 1 = im * (sx / im + 1) := by
    rw [Nat.mul_add, Nat.mul_one]; omega
  rw [h1, Nat.mul_mod_right]

lemma mem_fullScanList {g : Grid} {rules : List Rule} {m : Nat × Nat × Nat × Nat}
    (hdims : ∀ rule ∈ rules, 0 < rule.IMX ∧ 0 < rule.IMY ∧ 0 < rule.IMZ) :
    m ∈ fullScanList g rules ↔ isValidMatch g rules m = true := by
  obtain ⟨r, sx, sy, sz⟩ := m
  unfold fullScanList
  simp only [List.mem_flatMap, List.mem_range]
  constructor
  · rintro ⟨r', hr', z, hz, y, hy, x, hx, hcell⟩
    obtain ⟨sx', sy', sz', heq, h1, h2, h3, h4, h5, h6, h7, h8, h9, h10⟩ := mem_scanCell.mp hcell
    simp only [Prod.mk.injEq] at heq
    obtain ⟨rfl, rfl, rfl, rfl⟩ := heq
    simp only [isValidMatch, Bool.and_eq_true, decide_eq_true_eq]
    exact ⟨⟨⟨⟨hr', h7⟩, h8⟩, h9⟩, h10⟩
  · intro hv
    simp only [isValidMatch, Bool.and_eq_true, decide_eq_true_eq] at hv
    obtain ⟨⟨⟨⟨hr, hbx⟩, hby⟩, hbz⟩, hmat⟩ := hv
    obtain ⟨himx, himy, himz⟩ := hdims _ (ruleAt_mem hr)
    obtain ⟨x, hxs, hx1, hx2⟩ := stride_cover himx hbx
    obtain ⟨y, hys, hy1, hy2⟩ := stride_cover himy hby
    obtain ⟨z, hzs, hz1, hz2⟩ := stride_cover himz hbz
    exact ⟨r, hr, z, hzs, y, hys, x, hxs,
      mem_scanCell.mpr ⟨sx, sy, sz, rfl, hx1, hx2, hy1, hy2, hz1, hz2, hbx, hby, hbz, hmat⟩⟩

lemma nodup_flatMap' {α β : Type _} {l : List α} {f : α → List β}
    (h0 : l.Nodup) (h1 : ∀ a ∈ l, (f a).Nodup)
    (h2 : ∀ a ∈ l, ∀ a' ∈ l, ∀ b, b ∈ f a → b ∈ f a' → a = a') :
    (l.flatMap f).Nodup := by
  induction l with
  | nil => simp
  | cons a l ih =>
    rw [List.flatMap_cons]
    refine List.Nodup.append (h1 a (by simp)) ?_ ?_
    · exact ih (List.Nodup.of_cons h0) (fun x hx => h1 x (by simp [hx]))
        (fun x hx x' hx' b hb hb' => h2 x (by simp [hx]) x' (by simp [hx']) b hb hb')
    · intro b hb hb'
      obtain ⟨a', ha', hba'⟩ := List.mem_flatMap.mp hb'
      have haa : a = a' := h2 a (by simp) a' (by simp [ha']) b hb hba'
      subst haa
      exact absurd ha' (List.nodup_cons.mp h0).1

lemma nodup_fullScanList {g : Grid} {rules : List Rule}
    (hdims : ∀ rule ∈ rules, 0 < rule.IMX ∧ 0 < rule.IMY ∧ 0 < rule.IMZ) :
    (fullScanList g rules).Nodup := by
  unfold fullScanList
  apply nodup_flatMap' (List.nodup_range _)
  · intro r hr
    obtain ⟨himx, himy, himz⟩ := hdims _ (ruleAt_mem (List.mem_range.mp hr))
    apply nodup_flatMap' nodup_strideList
    · intro z hz
      apply nodup_flatMap' nodup_strideList
      · intro y hy
        apply nodup_flatMap' nodup_strideList
        · intro x _
          exact nodup_scanCell
        · rintro x hx x' hx' ⟨br, bx, bby, bz⟩ hb hb'
          obtain ⟨sx, sy, sz, heq, k1, k2, _⟩ := mem_scanCell.mp hb
          obtain ⟨sx', sy', sz', heq', k1', k2', _⟩ := mem_scanCell.mp hb'
          simp only [Prod.mk.injEq] at heq heq'
          obtain ⟨rfl, rfl, rfl, rfl⟩ := heq
          obtain ⟨-, rfl, -, -⟩ := heq'
          exact stride_window_unique ((mem_strideList himx).mp hx).2
            ((mem_strideList himx).mp hx').2 k1 k2 k1' k2'
      · rintro y hy y' hy' ⟨br, bx, bby, bz⟩ hb hb'
        obtain ⟨x, -, hcell⟩ := List.mem_flatMap.mp hb
        obtain ⟨x', -, hcell'⟩ := List.mem_flatMap.mp hb'
        obtain ⟨sx, sy, sz, heq, -, -, k1, k2, -⟩ := mem_scanCell.mp hcell
        obtain ⟨sx', sy', sz', heq', -, -, k1', k2', -⟩ := mem_scanCell.mp hcell'
        simp only [Prod.mk.injEq] at heq heq'
        obtain ⟨rfl, rfl, rfl, rfl⟩ := heq
        obtain ⟨-, -, rfl, -⟩ := heq'
        exact stride_window_unique ((mem_strideList himy).mp hy).2
          ((mem_strideList himy).mp hy').2 k1 k2 k1' k2'
    · rintro z hz z' hz' ⟨br, bx, bby, bz⟩ hb hb'
      obtain ⟨y, -, hb2⟩ := List.mem_flatMap.mp hb
      obtain ⟨x, -, hcell⟩ := List.mem_flatMap.mp hb2
      obtain ⟨y', -, hb2'⟩ := List.mem_flatMap.mp hb'
      obtain ⟨x', -, hcell'⟩ := List.mem_flatMap.mp hb2'
      obtain ⟨sx, sy, sz, heq, -, -, -, -, k1, k2, -⟩ := mem_scanCell.mp hcell
      obtain ⟨sx', sy', sz', heq', -, -, -, -, k1', k2', -⟩ := mem_scanCell.mp hcell'
      simp only [Prod.mk.injEq] at heq heq'
      obtain ⟨rfl, rfl, rfl, rfl⟩ := heq
      obtain ⟨-, -, -, rfl⟩ := heq'
      exact stride_window_unique ((mem_strideList himz).mp hz).2
        ((mem_strideList himz).mp hz').2 k1 k2 k1' k2'
  · rintro r hr r' hr' ⟨br, bx, bby, bz⟩ hb hb'
    obtain ⟨z, -, hb2⟩ := List.mem_flatMap.mp hb
    obtain ⟨y, -, hb3⟩ := List.mem_flatMap.mp hb2
    obtain ⟨x, -, hcell⟩ := List.mem_flatMap.mp hb3
    obtain ⟨z', -, hb2'⟩ := List.mem_flatMap.mp hb'
    obtain ⟨y', -, hb3'⟩ := List.mem_flatMap.mp hb2'
    obtain ⟨x', -, hcell'⟩ := List.mem_flatMap.mp hb3'
    obtain ⟨sx, sy, sz, heq, -⟩ := mem_scanCell.mp hcell
    obtain ⟨sx', sy', sz', heq', -⟩ := mem_scanCell.mp hcell'
    simp only [Prod.mk.injEq] at heq heq'
    omega

lemma countQuad_cons {l : List (Nat × Nat × Nat × Nat)} {a m : Nat × Nat × Nat × Nat} :
    countQuad (a :: l) m = countQuad l m + if a = m then 1 else 0 := by
  unfold countQuad
  rw [List.filter_cons]
  by_cases h : a = m
  · simp [h]
  · simp [h]

lemma countQuad_eq_zero {l : List (Nat × Nat × Nat × Nat)} {m : Nat × Nat × Nat × Nat}
    (hm : m ∉ l) : countQuad l m = 0 := by
  induction l with
  | nil => rfl
  | cons a l ih =>
    rw [countQuad_cons,
      if_neg (show ¬a = m by intro h; subst h; exact hm (List.mem_cons_self a l)),
      ih (fun h => hm (List.mem_cons_of_mem a h))]

lemma countQuad_eq_one {l : List (Nat × Nat × Nat × Nat)} {m : Nat × Nat × Nat × Nat}
    (hnd : l.Nodup) (hm : m ∈ l) : countQuad l m = 1 := by
  induction l with
  | nil => cases hm
  | cons a l ih =>
    rw [countQuad_cons]
    rcases List.mem_cons.mp hm with rfl | hm'
    · rw [if_pos rfl, countQuad_eq_zero (List.nodup_cons.mp hnd).1]
    · rw [ih (List.Nodup.of_cons hnd) hm',
        if_neg (show ¬a = m by intro h; subst h; exact (List.nodup_cons.mp hnd).1 hm')]

lemma countQuad_fullScanList {g : Grid} {rules : List Rule}
    (hdims : ∀ rule ∈ rules, 0 < rule.IMX ∧ 0 < rule.IMY ∧ 0 < rule.IMZ)
    (m : Nat × Nat × Nat × Nat) :
    countQuad (fullScanList g rules) m = if isValidMatch g rules m = true then 1 else 0 := by
  by_cases hv : isValidMatch g rules m = true
  · rw [if_pos hv]
    exact countQuad_eq_one (nodup_fullScanList hdims) ((mem_fullScanList hdims).mpr hv)
  · rw [if_neg hv]
    exact countQuad_eq_zero (fun hm => hv ((mem_fullScanList hdims).mp hm))

/-! ### The stateful full rescan produces exactly `fullScanList` -/

lemma foldl_matchList {α : Type _} {f : MatchState → α → MatchState}
    {out : α → List (Nat × Nat × Nat × Nat)}
    (h : ∀ st a, (f st a).matchList = st.matchList ++ out a) :
    ∀ (l : List α) (st : MatchState),
      (l.foldl f st).matchList = st.matchList ++ l.flatMap out := by
  intro l
  induction l with
  | nil => intro st; simp
  | cons a l ih =>
    intro st
    rw [List.foldl_cons, ih, h, List.flatMap_cons, List.append_assoc]

lemma fullStep_matchList (g : Grid) (rules : List Rule) (r x y z : Nat)
    (st : MatchState) (s : Nat × Nat × Nat) :
    (fullStep g rules r x y z st s).matchList
      = st.matchList ++ (scanHit g rules r x y z s).toList := by
  unfold fullStep
  cases h : scanHit g rules r x y z s with
  | none => simp
  | some m => simp [MatchState.add]

lemma fullCell_matchList (g : Grid) (rules : List Rule) (r x y z : Nat) (st : MatchState) :
    (fullCell g rules r x y z st).matchList = st.matchList ++ scanCell g rules r x y z := by
  unfold fullCell
  rw [foldl_matchList (fullStep_matchList g rules r x y z), ← List.filterMap_eq_flatMap_toList]
  rfl

lemma fullX_matchList (g : Grid) (rules : List Rule) (r y z : Nat) (st : MatchState) :
    (fullX g rules r y z st).matchList
      = st.matchList
        ++ (strideList (ruleAt rules r).IMX g.MX).flatMap (fun x => scanCell g rules r x y z) := by
  unfold fullX
  exact foldl_matchList (fun st' x => fullCell_matchList g rules r x y z st') _ _

lemma fullY_matchList (g : Grid) (rules : List Rule) (r z : Nat) (st : MatchState) :
    (fullY g rules r z st).matchList
      = st.matchList
        ++ (strideList (ruleAt rules r).IMY g.MY).flatMap (fun y =>
             (strideList (ruleAt rules r).IMX g.MX).flatMap (fun x => scanCell g rules r x y z)) := by
  unfold fullY
  exact foldl_matchList (fun st' y => fullX_matchList g rules r y z st') _ _

lemma fullZ_matchList (g : Grid) (rules : List Rule) (r : Nat) (st : MatchState) :
    (fullZ g rules r st).matchList
      = st.matchList
        ++ (strideList (ruleAt rules r).IMZ g.MZ).flatMap (fun z =>
             (strideList (ruleAt rules r).IMY g.MY).flatMap (fun y =>
               (strideList (ruleAt rules r).IMX g.MX).flatMap (fun x => scanCell g rules r x y z))) := by
  unfold fullZ
  exact foldl_matchList (fun st' z => fullY_matchList g rules r z st') _ _

lemma fullRescan_matchList (g : Grid) (rules : List Rule) (st : MatchState) :
    (fullRescan g rules st).matchList = fullScanList g rules := by
  unfold fullRescan
  rw [foldl_matchList (fun st' r => fullZ_matchList g rules r st')]
  rfl

/-! ### Invariants of the incremental rescan -/

lemma linear3_inj {MX MY : Nat} {x y z x' y' z' : Nat}
    (hx : x < MX) (hx' : x' < MX) (hy : y < MY) (hy' : y' < MY)
    (h : x + y * MX + z * (MX * MY) = x' + y' * MX + z' * (MX * MY)) :
    x = x' ∧ y = y' ∧ z = z' := by
  have hMX : 0 < MX := lt_of_le_of_lt (Nat.zero_le x) hx
  have hMY : 0 < MY := lt_of_le_of_lt (Nat.zero_le y) hy
  have h1 : x + (y + z * MY) * MX = x' + (y' + z' * MY) * MX := by
    have e : ∀ a b c : Nat, a + (b + c * MY) * MX = a + b * MX + c * (MX * MY) := by
      intros; ring
    rw [e, e]
    exact h
  have h2 : x % MX = x' % MX := by
    have := congrArg (· % MX) h1
    simpa [Nat.add_mul_mod_self_right] using this
  have hxx : x = x' := by rw [Nat.mod_eq_of_lt hx, Nat.mod_eq_of_lt hx'] at h2; exact h2
  subst hxx
  have h3 : (y + z * MY) * MX = (y' + z' * MY) * MX := Nat.add_left_cancel h1
  have h4 : y + z * MY = y' + z' * MY := Nat.eq_of_mul_eq_mul_right hMX h3
  have h5 : y % MY = y' % MY := by
    have := congrArg (· % MY) h4
    simpa [Nat.add_mul_mod_self_right] using this
  have hyy : y = y' := by rw [Nat.mod_eq_of_lt hy, Nat.mod_eq_of_lt hy'] at h5; exact h5
  subst hyy
  have h6 : z * MY = z' * MY := Nat.add_left_cancel h4
  exact ⟨rfl, rfl, Nat.eq_of_mul_eq_mul_right hMY h6⟩

lemma quadKey_inj {g : Grid} {rules : List Rule} {m m' : Nat × Nat × Nat × Nat}
    (hdims : ∀ rule ∈ rules, 0 < rule.IMX ∧ 0 < rule.IMY ∧ 0 < rule.IMZ)
    (hb : boundedMatch g rules m) (hb' : boundedMatch g rules m')
    (hk : quadKey g m = quadKey g m') : m = m' := by
  obtain ⟨r, x, y, z⟩ := m
  obtain ⟨r', x', y', z'⟩ := m'
  obtain ⟨hr, hbx, hby, hbz⟩ := hb
  obtain ⟨hr', hbx', hby', hbz'⟩ := hb'
  have hr2 : r < rules.length := hr
  have hbx2 : x + (ruleAt rules r).IMX ≤ g.MX := hbx
  have hby2 : y + (ruleAt rules r).IMY ≤ g.MY := hby
  have hbz2 : z + (ruleAt rules r).IMZ ≤ g.MZ := hbz
  have hbx2' : x' + (ruleAt rules r').IMX ≤ g.MX := hbx'
  have hby2' : y' + (ruleAt rules r').IMY ≤ g.MY := hby'
  have hbz2' : z' + (ruleAt rules r').IMZ ≤ g.MZ := hbz'
  simp only [quadKey, Prod.mk.injEq] at hk
  obtain ⟨rfl, hcell⟩ := hk
  obtain ⟨hdx, hdy, hdz⟩ := hdims (ruleAt rules r) (ruleAt_mem hr2)
  have e : ∀ a b c : Nat, cellIdx g a b c = a + b * g.MX + c * (g.MX * g.MY) := by
    intros; unfold cellIdx; ring
  rw [e, e] at hcell
  obtain ⟨rfl, rfl, rfl⟩ :=
    linear3_inj (by omega) (by omega) (by omega) (by omega) hcell
  rfl

lemma foldl_pres {α : Type _} {P : MatchState → Prop} {f : MatchState → α → MatchState}
    {l : List α} (h : ∀ st a, a ∈ l → P st → P (f st a)) :
    ∀ st, P st → P (l.foldl f st) := by
  induction l with
  | nil => exact fun st hP => hP
  | cons a l ih =>
    intro st hP
    exact ih (fun st' a' ha' => h st' a' (List.mem_cons_of_mem a ha'))
      (f st a) (h st a (List.mem_cons_self a l) hP)

lemma foldl_mono_mem {α : Type _} {f : MatchState → α → MatchState} {l : List α}
    (hmono : ∀ st a, a ∈ l → st.matchList ⊆ (f st a).matchList) :
    ∀ st, st.matchList ⊆ (l.foldl f st).matchList := by
  induction l with
  | nil => exact fun st => List.Subset.refl _
  | cons a l ih =>
    intro st
    exact fun m hm =>
      ih (fun st' a' ha' => hmono st' a' (List.mem_cons_of_mem a ha')) (f st a)
        (hmono st a (List.mem_cons_self a l) hm)

lemma foldl_capture {α : Type _} {P : MatchState → Prop} {f : MatchState → α → MatchState}
    {l : List α} {a₀ : α} {m : Nat × Nat × Nat × Nat}
    (hmem : a₀ ∈ l)
    (hpres : ∀ st a, a ∈ l → P st → P (f st a))
    (hmono : ∀ st a, a ∈ l → st.matchList ⊆ (f st a).matchList)
    (hcap : ∀ st, P st → m ∈ (f st a₀).matchList) :
    ∀ st, P st → m ∈ (l.foldl f st).matchList := by
  induction l with
  | nil => cases hmem
  | cons a l ih =>
    intro st hP
    rcases List.mem_cons.mp hmem with rfl | hmem'
    · exact foldl_mono_mem (fun st' a' ha' => hmono st' a' (List.mem_cons_of_mem a₀ ha'))
        (f st a₀) (hcap st hP)
    · exact ih hmem'
        (fun st' a' ha' => hpres st' a' (List.mem_cons_of_mem a ha'))
        (fun st' a' ha' => hmono st' a' (List.mem_cons_of_mem a ha'))
        (f st a) (hpres st a (List.mem_cons_self a l) hP)

lemma incShift_list_mono (g : Grid) (rules : List Rule) (r : Nat) (c : Nat × Nat × Nat)
    (st : MatchState) (sh : Nat × Nat × Nat) :
    st.matchList ⊆ (incShift g rules r c st sh).matchList := by
  unfold incShift
  split
  · exact fun m hm => List.mem_append_left _ hm
  · exact List.Subset.refl _

lemma incShift_pres {g : Grid} {rules : List Rule} {r : Nat} {c : Nat × Nat × Nat}
    {st : MatchState} {sh : Nat × Nat × Nat} (hr : r < rules.length)
    (h : ScanInv g rules st) : ScanInv g rules (incShift g rules r c st sh) := by
  obtain ⟨hbnd, hnd, hmask⟩ := h
  unfold incShift
  split
  · rename_i hc
    obtain ⟨h1, h2, h3, h4, h5, h6, h7, h8⟩ := hc
    refine ⟨?_, ?_, ?_⟩
    · intro m hm
      rcases List.mem_append.mp hm with hm' | hm'
      · exact hbnd m hm'
      · have hme : m = (r, c.1 - sh.1, c.2.1 - sh.2.1, c.2.2 - sh.2.2) := by simpa using hm'
        subst hme
        exact ⟨hr, h4, h5, h6⟩
    · refine List.Nodup.append hnd (List.nodup_singleton _) ?_
      intro m hm hm'
      have hme : m = (r, c.1 - sh.1, c.2.1 - sh.2.1, c.2.2 - sh.2.2) := by simpa using hm'
      subst hme
      have hk : (r, cellIdx g (c.1 - sh.1) (c.2.1 - sh.2.1) (c.2.2 - sh.2.2)) ∈ st.mask :=
        (hmask _).mpr ⟨_, hm, rfl⟩
      have hg : maskGet st r (cellIdx g (c.1 - sh.1) (c.2.1 - sh.2.1) (c.2.2 - sh.2.2)) = true :=
        decide_eq_true hk
      rw [h7] at hg
      cases hg
    · intro p
      constructor
      · intro hp
        rcases List.mem_cons.mp hp with rfl | hp'
        · exact ⟨(r, c.1 - sh.1, c.2.1 - sh.2.1, c.2.2 - sh.2.2),
            List.mem_append_right _ (List.mem_singleton_self _), rfl⟩
        · obtain ⟨m, hm, rfl⟩ := (hmask p).mp hp'
          exact ⟨m, List.mem_append_left _ hm, rfl⟩
      · rintro ⟨m, hm, rfl⟩
        rcases List.mem_append.mp hm with hm' | hm'
        · exact List.mem_cons_of_mem _ ((hmask _).mpr ⟨m, hm', rfl⟩)
        · have hme : m = (r, c.1 - sh.1, c.2.1 - sh.2.1, c.2.2 - sh.2.2) := by simpa using hm'
          subst hme
          exact List.mem_cons_self _ _
  · exact ⟨hbnd, hnd, hmask⟩

lemma incShift_valid {g : Grid} {rules : List Rule} {r : Nat} {c : Nat × Nat × Nat}
    {st st0 : MatchState} {sh : Nat × Nat × Nat} (hr : r < rules.length)
    (h : ∀ m ∈ st.matchList, m ∈ st0.matchList ∨ isValidMatch g rules m = true) :
    ∀ m ∈ (incShift g rules r c st sh).matchList,
      m ∈ st0.matchList ∨ isValidMatch g rules m = true := by
  unfold incShift
  split
  · rename_i hc
    obtain ⟨h1, h2, h3, h4, h5, h6, h7, h8⟩ := hc
    intro m hm
    rcases List.mem_append.mp hm with hm' | hm'
    · exact h m hm'
    · have hme : m = (r, c.1 - sh.1, c.2.1 - sh.2.1, c.2.2 - sh.2.2) := by simpa using hm'
      subst hme
      right
      simp only [isValidMatch, Bool.and_eq_true, decide_eq_true_eq]
      exact ⟨⟨⟨⟨hr, h4⟩, h5⟩, h6⟩, h8⟩
  · exact h

lemma incShift_capture {g : Grid} {rules : List Rule} {r sx sy sz : Nat}
    {c : Nat × Nat × Nat} {st : MatchState}
    (hdims : ∀ rule ∈ rules, 0 < rule.IMX ∧ 0 < rule.IMY ∧ 0 < rule.IMZ)
    (hr : r < rules.length)
    (hbx : sx + (ruleAt rules r).IMX ≤ g.MX)
    (hby : sy + (ruleAt rules r).IMY ≤ g.MY)
    (hbz : sz + (ruleAt rules r).IMZ ≤ g.MZ)
    (hmat : Grid.matches g (ruleAt rules r) sx sy sz = true)
    (hcx : sx ≤ c.1) (hcy : sy ≤ c.2.1) (hcz : sz ≤ c.2.2)
    (hInv : ScanInv g rules st) :
    (r, sx, sy, sz) ∈ (incShift g rules r c st (c.1 - sx, c.2.1 - sy, c.2.2 - sz)).matchList := by
  obtain ⟨hbnd, hnd, hmask⟩ := hInv
  unfold incShift
  dsimp only
  have e1 : c.1 - (c.1 - sx) = sx := by omega
  have e2 : c.2.1 - (c.2.1 - sy) = sy := by omega
  have e3 : c.2.2 - (c.2.2 - sz) = sz := by omega
  rw [e1, e2, e3]
  split
  · exact List.mem_append_right _ (List.mem_singleton_self _)
  · rename_i hc
    by_cases hmg : maskGet st r (cellIdx g sx sy sz) = false
    · exact absurd ⟨by omega, by omega, by omega, hbx, hby, hbz, hmg, hmat⟩ hc
    · have hk : (r, cellIdx g sx sy sz) ∈ st.mask := by
        simpa [maskGet] using hmg
      obtain ⟨m', hm', hkey⟩ := (hmask _).mp hk
      have hkk : quadKey g m' = quadKey g (r, sx, sy, sz) := by rw [← hkey]; rfl
      have hmm : m' = (r, sx, sy, sz) :=
        quadKey_inj hdims (hbnd m' hm') ⟨hr, hbx, hby, hbz⟩ hkk
      exact hmm ▸ hm'

lemma incRule_mono (g : Grid) (rules : List Rule) (c : Nat × Nat × Nat)
    (st : MatchState) (r : Nat) : st.matchList ⊆ (incRule g rules c st r).matchList := by
  unfold incRule
  exact foldl_mono_mem (fun st' a _ => incShift_list_mono g rules r c st' a) st

lemma incRule_pres {g : Grid} {rules : List Rule} {c : Nat × Nat × Nat}
    {st st0 : MatchState} {r : Nat} (hr : r < rules.length)
    (h : IncInv g rules st0 st) : IncInv g rules st0 (incRule g rules c st r) := by
  unfold incRule
  exact foldl_pres (fun st' a _ hP => ⟨incShift_pres hr hP.1, incShift_valid hr hP.2⟩) st h

lemma incRule_capture {g : Grid} {rules : List Rule} {r sx sy sz : Nat}
    {c : Nat × Nat × Nat} {st st0 : MatchState}
    (hdims : ∀ rule ∈ rules, 0 < rule.IMX ∧ 0 < rule.IMY ∧ 0 < rule.IMZ)
    (hr : r < rules.length)
    (hbx : sx + (ruleAt rules r).IMX ≤ g.MX)
    (hby : sy + (ruleAt rules r).IMY ≤ g.MY)
    (hbz : sz + (ruleAt rules r).IMZ ≤ g.MZ)
    (hmat : Grid.matches g (ruleAt rules r) sx sy sz = true)
    (hcx : sx ≤ c.1) (hcx' : c.1 < sx + (ruleAt rules r).IMX)
    (hcy : sy ≤ c.2.1) (hcy' : c.2.1 < sy + (ruleAt rules r).IMY)
    (hcz : sz ≤ c.2.2) (hcz' : c.2.2 < sz + (ruleAt rules r).IMZ)
    (hP : IncInv g rules st0 st) :
    (r, sx, sy, sz) ∈ (incRule g rules c st r).matchList := by
  unfold incRule
  have hsmem : (c.1 - sx, c.2.1 - sy, c.2.2 - sz)
      ∈ (ruleAt rules r).ishifts (gridAt g c.1 c.2.1 c.2.2) := by
    apply mem_ishifts.mpr
    refine ⟨show c.1 - sx < (ruleAt rules r).IMX by omega,
            show c.2.1 - sy < (ruleAt rules r).IMY by omega,
            show c.2.2 - sz < (ruleAt rules r).IMZ by omega, ?_⟩
    show ((ruleAt rules r).input.getD
        ((ruleAt rules r).pos (c.1 - sx) (c.2.1 - sy) (c.2.2 - sz)) 0).testBit
        (gridAt g c.1 c.2.1 c.2.2) = true
    have hm2 := matches_iff.mp hmat (c.2.2 - sz) (by omega) (c.2.1 - sy) (by omega)
      (c.1 - sx) (by omega)
    have ex : sx + (c.1 - sx) = c.1 := by omega
    have ey : sy + (c.2.1 - sy) = c.2.1 := by omega
    have ez : sz + (c.2.2 - sz) = c.2.2 := by omega
    rwa [ex, ey, ez] at hm2
  exact foldl_capture hsmem
    (fun st' a _ hP' => ⟨incShift_pres hr hP'.1, incShift_valid hr hP'.2⟩)
    (fun st' a _ => incShift_list_mono g rules r c st' a)
    (fun st' hP' => incShift_capture hdims hr hbx hby hbz hmat hcx hcy hcz hP'.1)
    st hP

lemma incCell_mono (g : Grid) (rules : List Rule) (st : MatchState) (c : Nat × Nat × Nat) :
    st.matchList ⊆ (incCell g rules st c).matchList := by
  unfold incCell
  exact foldl_mono_mem (fun st' a _ => incRule_mono g rules c st' a) st

lemma incCell_pres {g : Grid} {rules : List Rule} {st st0 : MatchState} {c : Nat × Nat × Nat}
    (h : IncInv g rules st0 st) : IncInv g rules st0 (incCell g rules st c) := by
  unfold incCell
  exact foldl_pres (fun st' a ha hP => incRule_pres (List.mem_range.mp ha) hP) st h

lemma incCell_capture {g : Grid} {rules : List Rule} {r sx sy sz : Nat}
    {c : Nat × Nat × Nat} {st st0 : MatchState}
    (hdims : ∀ rule ∈ rules, 0 < rule.IMX ∧ 0 < rule.IMY ∧ 0 < rule.IMZ)
    (hr : r < rules.length)
    (hbx : sx + (ruleAt rules r).IMX ≤ g.MX)
    (hby : sy + (ruleAt rules r).IMY ≤ g.MY)
    (hbz : sz + (ruleAt rules r).IMZ ≤ g.MZ)
    (hmat : Grid.matches g (ruleAt rules r) sx sy sz = true)
    (hcx : sx ≤ c.1) (hcx' : c.1 < sx + (ruleAt rules r).IMX)
    (hcy : sy ≤ c.2.1) (hcy' : c.2.1 < sy + (ruleAt rules r).IMY)
    (hcz : sz ≤ c.2.2) (hcz' : c.2.2 < sz + (ruleAt rules r).IMZ)
    (hP : IncInv g rules st0 st) :
    (r, sx, sy, sz) ∈ (incCell g rules st c).matchList := by
  unfold incCell
  exact foldl_capture (List.mem_range.mpr hr)
    (fun st' a ha hP' => incRule_pres (List.mem_range.mp ha) hP')
    (fun st' a _ => incRule_mono g rules c st' a)
    (fun st' hP' => incRule_capture hdims hr hbx hby hbz hmat hcx hcx' hcy hcy' hcz hcz' hP')
    st hP

lemma incScan_mono (g : Grid) (rules : List Rule) (changes : List (Nat × Nat × Nat))
    (st : MatchState) : st.matchList ⊆ (incScan g rules changes st).matchList := by
  unfold incScan
  exact foldl_mono_mem (fun st' a _ => incCell_mono g rules st' a) st

lemma incScan_pres {g : Grid} {rules : List Rule} {changes : List (Nat × Nat × Nat)}
    {st st0 : MatchState} (h : IncInv g rules st0 st) :
    IncInv g rules st0 (incScan g rules changes st) := by
  unfold incScan
  exact foldl_pres (fun st' a _ hP => incCell_pres hP) st h

lemma incScan_capture {g : Grid} {rules : List Rule} {changes : List (Nat × Nat × Nat)}
    {r sx sy sz : Nat} {c : Nat × Nat × Nat} {st st0 : MatchState}
    (hdims : ∀ rule ∈ rules, 0 < rule.IMX ∧ 0 < rule.IMY ∧ 0 < rule.IMZ)
    (hr : r < rules.length)
    (hc : c ∈ changes)
    (hbx : sx + (ruleAt rules r).IMX ≤ g.MX)
    (hby : sy + (ruleAt rules r).IMY ≤ g.MY)
    (hbz : sz + (ruleAt rules r).IMZ ≤ g.MZ)
    (hmat : Grid.matches g (ruleAt rules r) sx sy sz = true)
    (hcx : sx ≤ c.1) (hcx' : c.1 < sx + (ruleAt rules r).IMX)
    (hcy : sy ≤ c.2.1) (hcy' : c.2.1 < sy + (ruleAt rules r).IMY)
    (hcz : sz ≤ c.2.2) (hcz' : c.2.2 < sz + (ruleAt rules r).IMZ)
    (hP : IncInv g rules st0 st) :
    (r, sx, sy, sz) ∈ (incScan g rules changes st).matchList := by
  unfold incScan
  exact foldl_capture hc
    (fun st' a _ hP' => incCell_pres hP')
    (fun st' a _ => incCell_mono g rules st' a)
    (fun st' hP' => incCell_capture hdims hr hbx hby hbz hmat hcx hcx' hcy hcy' hcz hcz' hP')
    st hP

/-- Core of the C1 refinement proof, stated over the two grids sharing
dimensions: after an incremental rescan from an exact pre-edit matcher state,
the entries that still pass `grid.matches` on the edited grid are exactly the
full-rescan match set of the edited grid, with equal multiplicities. -/
lemma incScan_filter_core (MX MY MZ : Nat) (s s' : List Nat) (rules : List Rule)
    (changes : List (Nat × Nat × Nat)) (st0 : MatchState)
    (hdims : ∀ rule ∈ rules, 0 < rule.IMX ∧ 0 < rule.IMY ∧ 0 < rule.IMZ)
    (hsound : ∀ m ∈ st0.matchList, isValidMatch ⟨MX, MY, MZ, s⟩ rules m = true)
    (hcomplete : ∀ r < rules.length, ∀ x < MX, ∀ y < MY, ∀ z < MZ,
        isValidMatch ⟨MX, MY, MZ, s⟩ rules (r, x, y, z) = true → (r, x, y, z) ∈ st0.matchList)
    (hnodup : st0.matchList.Nodup)
    (hmask1 : ∀ m ∈ st0.matchList, quadKey ⟨MX, MY, MZ, s⟩ m ∈ st0.mask)
    (hmask2 : ∀ p ∈ st0.mask, ∃ m ∈ st0.matchList, p = quadKey ⟨MX, MY, MZ, s⟩ m)
    (hchanges : ∀ x < MX, ∀ y < MY, ∀ z < MZ,
        gridAt ⟨MX, MY, MZ, s⟩ x y z ≠ gridAt ⟨MX, MY, MZ, s'⟩ x y z → (x, y, z) ∈ changes)
    (m : Nat × Nat × Nat × Nat) :
    countQuad (((incScan ⟨MX, MY, MZ, s'⟩ rules changes st0).matchList).filter
        (fun m' => Grid.matches ⟨MX, MY, MZ, s'⟩ (ruleAt rules m'.1) m'.2.1 m'.2.2.1 m'.2.2.2)) m
      = countQuad (fullScanList ⟨MX, MY, MZ, s'⟩ rules) m := by
  have hInv0 : IncInv ⟨MX, MY, MZ, s'⟩ rules st0 st0 := by
    refine ⟨⟨?_, hnodup, ?_⟩, fun m' hm' => Or.inl hm'⟩
    · intro m' hm'
      have hv := hsound m' hm'
      simp only [isValidMatch, Bool.and_eq_true, decide_eq_true_eq] at hv
      exact ⟨hv.1.1.1.1, hv.1.1.1.2, hv.1.1.2, hv.1.2⟩
    · intro p
      constructor
      · intro hp
        obtain ⟨m', hm', he⟩ := hmask2 p hp
        exact ⟨m', hm', he⟩
      · rintro ⟨m', hm', rfl⟩
        exact hmask1 m' hm'
  have hFinal : IncInv ⟨MX, MY, MZ, s'⟩ rules st0 (incScan ⟨MX, MY, MZ, s'⟩ rules changes st0) :=
    incScan_pres hInv0
  have hmem : ∀ m', m' ∈ ((incScan ⟨MX, MY, MZ, s'⟩ rules changes st0).matchList).filter
      (fun m' => Grid.matches ⟨MX, MY, MZ, s'⟩ (ruleAt rules m'.1) m'.2.1 m'.2.2.1 m'.2.2.2)
      ↔ isValidMatch ⟨MX, MY, MZ, s'⟩ rules m' = true := by
    intro m'
    constructor
    · intro hm'
      obtain ⟨hlist, hpred⟩ := List.mem_filter.mp hm'
      rcases hFinal.2 m' hlist with hold | hvalid
      · have hv := hsound m' hold
        simp only [isValidMatch, Bool.and_eq_true, decide_eq_true_eq] at hv ⊢
        exact ⟨⟨⟨⟨hv.1.1.1.1, hv.1.1.1.2⟩, hv.1.1.2⟩, hv.1.2⟩, hpred⟩
      · exact hvalid
    · intro hv
      obtain ⟨r, sx, sy, sz⟩ := m'
      have hv' := hv
      simp only [isValidMatch, Bool.and_eq_true, decide_eq_true_eq] at hv'
      obtain ⟨⟨⟨⟨hr, hbx⟩, hby⟩, hbz⟩, hmat⟩ := hv'
      have hr2 : r < rules.length := hr
      have hbx2 : sx + (ruleAt rules r).IMX ≤ MX := hbx
      have hby2 : sy + (ruleAt rules r).IMY ≤ MY := hby
      have hbz2 : sz + (ruleAt rules r).IMZ ≤ MZ := hbz
      have hmat2 : Grid.matches ⟨MX, MY, MZ, s'⟩ (ruleAt rules r) sx sy sz = true := hmat
      obtain ⟨hdx, hdy, hdz⟩ := hdims (ruleAt rules r) (ruleAt_mem hr2)
      apply List.mem_filter.mpr
      refine ⟨?_, by exact hmat2⟩
      by_cases hold : (r, sx, sy, sz) ∈ st0.matchList
      · exact incScan_mono _ _ _ _ hold
      · have hvg : ¬ isValidMatch ⟨MX, MY, MZ, s⟩ rules (r, sx, sy, sz) = true := by
          intro hvgt
          exact hold (hcomplete r hr2 sx (by omega) sy (by omega) sz (by omega) hvgt)
        have hmatg : Grid.matches ⟨MX, MY, MZ, s⟩ (ruleAt rules r) sx sy sz = false := by
          rcases Bool.eq_false_or_eq_true
            (Grid.matches ⟨MX, MY, MZ, s⟩ (ruleAt rules r) sx sy sz) with hb | hb
          · exfalso
            apply hvg
            simp only [isValidMatch, Bool.and_eq_true, decide_eq_true_eq]
            exact ⟨⟨⟨⟨hr2, hbx2⟩, hby2⟩, hbz2⟩, hb⟩
          · exact hb
        have hnall : ¬ (∀ k < (ruleAt rules r).IMZ, ∀ j < (ruleAt rules r).IMY,
            ∀ i < (ruleAt rules r).IMX,
            ((ruleAt rules r).input.getD ((ruleAt rules r).pos i j k) 0).testBit
              (gridAt ⟨MX, MY, MZ, s⟩ (sx + i) (sy + j) (sz + k)) = true) := by
          intro hall
          have := matches_iff.mpr hall
          rw [hmatg] at this
          cases this
        push_neg at hnall
        obtain ⟨k, hk, j, hj, i, hi, hbit⟩ := hnall
        have hbitf : ((ruleAt rules r).input.getD ((ruleAt rules r).pos i j k) 0).testBit
            (gridAt ⟨MX, MY, MZ, s⟩ (sx + i) (sy + j) (sz + k)) = false :=
          Bool.not_eq_true _ ▸ (by exact hbit)
        have hbitt : ((ruleAt rules r).input.getD ((ruleAt rules r).pos i j k) 0).testBit
            (gridAt ⟨MX, MY, MZ, s'⟩ (sx + i) (sy + j) (sz + k)) = true :=
          matches_iff.mp hmat2 k hk j hj i hi
        have hne : gridAt ⟨MX, MY, MZ, s⟩ (sx + i) (sy + j) (sz + k)
            ≠ gridAt ⟨MX, MY, MZ, s'⟩ (sx + i) (sy + j) (sz + k) := by
          intro he
          rw [he, hbitt] at hbitf
          cases hbitf
        have hcmem := hchanges (sx + i) (by omega) (sy + j) (by omega) (sz + k) (by omega) hne
        exact incScan_capture hdims hr2 hcmem hbx2 hby2 hbz2 hmat2
          (show sx ≤ sx + i by omega) (show sx + i < sx + (ruleAt rules r).IMX by omega)
          (show sy ≤ sy + j by omega) (show sy + j < sy + (ruleAt rules r).IMY by omega)
          (show sz ≤ sz + k by omega) (show sz + k < sz + (ruleAt rules r).IMZ by omega)
          hInv0
  have hndF : (((incScan ⟨MX, MY, MZ, s'⟩ rules changes st0).matchList).filter
      (fun m' => Grid.matches ⟨MX, MY, MZ, s'⟩ (ruleAt rules m'.1) m'.2.1 m'.2.2.1 m'.2.2.2)).Nodup :=
    List.Nodup.filter _ hFinal.1.2.1
  by_cases hv : isValidMatch ⟨MX, MY, MZ, s'⟩ rules m = true
  · rw [countQuad_eq_one hndF ((hmem m).mpr hv),
      countQuad_eq_one (nodup_fullScanList hdims) ((mem_fullScanList hdims).mpr hv)]
  · rw [countQuad_eq_zero (fun hm => hv ((hmem m).mp hm)),
      countQuad_eq_zero (fun hm => hv ((mem_fullScanList hdims).mp hm))]

/-! ### The forward mask invariant (every listed match has its bit set) -/

lemma maskCovers_add {g : Grid} {st : MatchState} (r x y z : Nat)
    (h : MaskCovers g st) : MaskCovers g (st.add g r x y z) := by
  intro m hm
  rcases List.mem_append.mp hm with hm' | hm'
  · exact List.mem_cons_of_mem _ (h m hm')
  · have hme : m = (r, x, y, z) := by simpa using hm'
    subst hme
    exact List.mem_cons_self _ _

lemma maskCovers_fullStep {g : Grid} {rules : List Rule} {r x y z : Nat}
    {st : MatchState} {s : Nat × Nat × Nat} (h : MaskCovers g st) :
    MaskCovers g (fullStep g rules r x y z st s) := by
  unfold fullStep
  cases scanHit g rules r x y z s with
  | none => exact h
  | some m => exact maskCovers_add _ _ _ _ h

lemma maskCovers_foldl {α : Type _} {g : Grid} {f : MatchState → α → MatchState} {l : List α}
    (hstep : ∀ st a, MaskCovers g st → MaskCovers g (f st a)) :
    ∀ st, MaskCovers g st → MaskCovers g (l.foldl f st) := by
  induction l with
  | nil => exact fun st h => h
  | cons a l ih => exact fun st h => ih (f st a) (hstep st a h)

lemma maskCovers_fullRescan (g : Grid) (rules : List Rule) (st : MatchState) :
    MaskCovers g (fullRescan g rules st) := by
  unfold fullRescan
  apply maskCovers_foldl
  · intro st' r
    unfold fullZ
    apply maskCovers_foldl
    intro st'' z
    unfold fullY
    apply maskCovers_foldl
    intro st3 y
    unfold fullX
    apply maskCovers_foldl
    intro st4 x
    unfold fullCell
    exact maskCovers_foldl (fun st5 s => maskCovers_fullStep) st4
  · intro m hm
    cases hm

lemma maskCovers_incShift {g : Grid} {rules : List Rule} {r : Nat} {c : Nat × Nat × Nat}
    {st : MatchState} {s : Nat × Nat × Nat} (h : MaskCovers g st) :
    MaskCovers g (incShift g rules r c st s) := by
  unfold incShift
  split
  · exact maskCovers_add _ _ _ _ h
  · exact h

lemma maskCovers_incScan {g : Grid} {rules : List Rule} {changes : List (Nat × Nat × Nat)}
    {st : MatchState} (h : MaskCovers g st) : MaskCovers g (incScan g rules changes st) := by
  unfold incScan
  apply maskCovers_foldl ?_ st h
  intro st' c
  unfold incCell
  apply maskCovers_foldl
  intro st'' r
  unfold incRule
  exact maskCovers_foldl (fun st3 s => maskCovers_incShift) st''

lemma maskCovers_runScan {g : Grid} {rules : List Rule} {changes : List (Nat × Nat × Nat)}
    {lmt : Int} {st : MatchState} (h : MaskCovers g st) :
    MaskCovers g (runScan g rules changes lmt st) := by
  unfold runScan
  split
  · exact maskCovers_incScan h
  · exact maskCovers_fullRescan g rules st

/-! ### The search advance and the fields loop -/

lemma searchLoop_le (gen : Nat → SearchYield) :
    ∀ (fuel pos : Nat) (res : SearchYield), (searchLoop gen pos fuel res).1 ≤ pos + fuel := by
  intro fuel
  induction fuel with
  | zero => intro pos res; exact Nat.le_refl _
  | succ n ih =>
    intro pos res
    unfold searchLoop
    cases gen pos with
    | done t =>
      dsimp only
      omega
    | yielded m =>
      dsimp only
      exact le_trans (ih (pos + 1) (SearchYield.yielded m)) (by omega)

lemma advanceSearch_le (gen : Nat → SearchYield) (k : Nat) :
    (advanceSearch gen k).1 ≤ k + 257 := by
  unfold advanceSearch
  exact le_trans (searchLoop_le gen 256 (k + 1) (gen k)) (by omega)

lemma fieldsLoop_spec (counter : Nat) :
    ∀ (l : List (Option FieldSpec)) (c : Nat) (as ac : Bool) (acc : List Nat),
      ∃ nc, (fieldsLoop counter c l as ac acc).1 = acc.reverse ++ nc ∧
        (∀ d ∈ nc, ∃ i, i < l.length ∧ d = c + i ∧ ∃ f, l.getD i none = some f ∧
          (counter = 0 ∨ f.recompute = true)) ∧
        ((∃ d ∈ nc, ∃ f, l.getD (d - c) none = some f ∧ f.essential = true ∧ f.success = false) →
          (fieldsLoop counter c l as ac acc).2 = false) ∧
        ((as = false ∧ (ac = true ∨ nc ≠ []) ∧
          (∀ d ∈ nc, ∀ f, l.getD (d - c) none = some f → f.success = false)) →
          (fieldsLoop counter c l as ac acc).2 = false) := by
  intro l
  induction l with
  | nil =>
    intro c as ac acc
    refine ⟨[], by simp [fieldsLoop], ?_, ?_, ?_⟩
    · intro d hd; cases hd
    · rintro ⟨d, hd, -⟩; cases hd
    · rintro ⟨has, hac, -⟩
      rcases hac with hac | hne
      · subst has; subst hac; simp [fieldsLoop]
      · exact absurd rfl hne
  | cons hd rest ih =>
    intro c as ac acc
    cases hd with
    | none =>
      obtain ⟨nc, h1, h2, h3, h4⟩ := ih (c + 1) as ac acc
      refine ⟨nc, ?_, ?_, ?_, ?_⟩
      · simpa [fieldsLoop] using h1
      · intro d hdm
        obtain ⟨i, hi, hdi, f, hf, he⟩ := h2 d hdm
        exact ⟨i + 1, by simpa using hi, by omega, f, by simpa using hf, he⟩
      · rintro ⟨d, hdm, f, hf, hfe, hfs⟩
        have hconv : ∃ d ∈ nc, ∃ f, rest.getD (d - (c + 1)) none = some f ∧
            f.essential = true ∧ f.success = false := by
          obtain ⟨i, hi, hdi, -⟩ := h2 d hdm
          refine ⟨d, hdm, f, ?_, hfe, hfs⟩
          have e1 : d - c = i + 1 := by omega
          have e2 : d - (c + 1) = i := by omega
          rw [e1] at hf
          rw [e2]
          simpa using hf
        simpa [fieldsLoop] using h3 hconv
      · rintro ⟨has, hac, hall⟩
        have hconv : ∀ d ∈ nc, ∀ f, rest.getD (d - (c + 1)) none = some f → f.success = false := by
          intro d hdm f hf
          obtain ⟨i, hi, hdi, -⟩ := h2 d hdm
          apply hall d hdm f
          have e1 : d - c = i + 1 := by omega
          have e2 : d - (c + 1) = i := by omega
          rw [e2] at hf
          rw [e1]
          simpa using hf
        simpa [fieldsLoop] using h4 ⟨has, hac, hconv⟩
    | some f =>
      by_cases helig : counter = 0 ∨ f.recompute = true
      · by_cases hfail : f.success = false ∧ f.essential = true
        · refine ⟨[c], ?_, ?_, ?_, ?_⟩
          · simp [fieldsLoop, helig, hfail]
          · intro d hdm
            have hdc : d = c := by simpa using hdm
            subst hdc
            exact ⟨0, by simp, by omega, f, by simp, helig⟩
          · intro _
            simp [fieldsLoop, helig, hfail]
          · intro _
            simp [fieldsLoop, helig, hfail]
        · obtain ⟨nc, h1, h2, h3, h4⟩ := ih (c + 1) (as || f.success) true (c :: acc)
          have hloop : fieldsLoop counter c (some f :: rest) as ac acc
              = fieldsLoop counter (c + 1) rest (as || f.success) true (c :: acc) := by
            simp [fieldsLoop, helig, hfail]
          refine ⟨c :: nc, ?_, ?_, ?_, ?_⟩
          · rw [hloop, h1, List.reverse_cons, List.append_assoc]
            rfl
          · intro d hdm
            rcases List.mem_cons.mp hdm with rfl | hdm'
            · exact ⟨0, by simp, by omega, f, by simp, helig⟩
            · obtain ⟨i, hi, hdi, f', hf', he'⟩ := h2 d hdm'
              exact ⟨i + 1, by simpa using hi, by omega, f', by simpa using hf', he'⟩
          · rintro ⟨d, hdm, f', hf', hfe', hfs'⟩
            rw [hloop]
            rcases List.mem_cons.mp hdm with rfl | hdm'
            · have : (some f :: rest).getD (d - d) none = some f := by simp
              rw [this] at hf'
              obtain rfl : f = f' := Option.some.inj hf'
              exact absurd ⟨hfs', hfe'⟩ hfail
            · apply h3
              obtain ⟨i, hi, hdi, -⟩ := h2 d hdm'
              refine ⟨d, hdm', f', ?_, hfe', hfs'⟩
              have e1 : d - c = i + 1 := by omega
              have e2 : d - (c + 1) = i := by omega
              rw [e1] at hf'
              rw [e2]
              simpa using hf'
          · rintro ⟨has, -, hall⟩
            rw [hloop]
            have hfs : f.success = false := by
              apply hall c (List.mem_cons_self _ _) f
              simp
            apply h4
            refine ⟨?_, Or.inl rfl, ?_⟩
            · rw [has, hfs]
              rfl
            · intro d hdm' f' hf'
              apply hall d (List.mem_cons_of_mem _ hdm') f'
              obtain ⟨i, hi, hdi, -⟩ := h2 d hdm'
              have e1 : d - c = i + 1 := by omega
              have e2 : d - (c + 1) = i := by omega
              rw [e2] at hf'
              rw [e1]
              simpa using hf'
      · obtain ⟨nc, h1, h2, h3, h4⟩ := ih (c + 1) as ac acc
        have hloop : fieldsLoop counter c (some f :: rest) as ac acc
            = fieldsLoop counter (c + 1) rest as ac acc := by
          simp [fieldsLoop, helig]
        refine ⟨nc, by rw [hloop]; exact h1, ?_, ?_, ?_⟩
        · intro d hdm
          obtain ⟨i, hi, hdi, f', hf', he'⟩ := h2 d hdm
          exact ⟨i + 1, by simpa using hi, by omega, f', by simpa using hf', he'⟩
        · rintro ⟨d, hdm, f', hf', hfe', hfs'⟩
          rw [hloop]
          apply h3
          obtain ⟨i, hi, hdi, -⟩ := h2 d hdm
          refine ⟨d, hdm, f', ?_, hfe', hfs'⟩
          have e1 : d - c = i + 1 := by omega
          have e2 : d - (c + 1) = i := by omega
          rw [e1] at hf'
          rw [e2]
          simpa using hf'
        · rintro ⟨has, hac, hall⟩
          rw [hloop]
          apply h4
          refine ⟨has, hac, ?_⟩
          intro d hdm f' hf'
          apply hall d hdm f'
          obtain ⟨i, hi, hdi, -⟩ := h2 d hdm
          have e1 : d - c = i + 1 := by omega
          have e2 : d - (c + 1) = i := by omega
          rw [e2] at hf'
          rw [e1]
          simpa using hf'

/-! ### Case analysis of runNode regarding the fields stage -/

lemma runNode_fields_cases (g : Grid) (rules : List Rule) (changes : List (Nat × Nat × Nat))
    (cf : Option (List Nat)) (bp : List (List Int)) (gen : Nat → SearchYield)
    (node : RuleNodeState) :
    (runNode g rules changes cf bp gen node).2.2 = [] ∨
    ((runNode g rules changes cf bp gen node).2.2 = (runFields node.counter node.fields).1 ∧
      ((runFields node.counter node.fields).2 = false →
        (runNode g rules changes cf bp gen node).2.1 = RunState.FAIL)) := by
  unfold runNode runAfterLimit runSearchAdvance runMatchFields
  dsimp only
  split
  · left; rfl
  · split
    · split
      · cases cf with
        | none => left; rfl
        | some f =>
          right
          refine ⟨rfl, ?_⟩
          intro h
          dsimp only
          rw [h]
          rfl
      · cases hs : node.searching with
        | some k =>
          dsimp only
          rcases hadv : advanceSearch gen k with ⟨k', res⟩
          cases res with
          | yielded n => left; rfl
          | done o =>
            cases o with
            | none => left; rfl
            | some traj =>
              right
              refine ⟨rfl, ?_⟩
              intro h
              dsimp only
              rw [h]
              rfl
        | none =>
          dsimp only
          cases cf with
          | none => left; rfl
          | some f =>
            dsimp only
            rcases hadv : advanceSearch gen 0 with ⟨k', res⟩
            cases res with
            | yielded n => left; rfl
            | done o =>
              cases o with
              | none => left; rfl
              | some traj =>
                right
                refine ⟨rfl, ?_⟩
                intro h
                dsimp only
                rw [h]
                rfl
    · right
      refine ⟨rfl, ?_⟩
      intro h
      dsimp only
      rw [h]
      rfl

/-! ### Claim theorems -/

set_option maxRecDepth 10000

/-- C3: a full rescan (`run()` with `lastMatchedTurn < 0`) produces exactly
the quads `(r, sx, sy, sz)` whose rule index is in range, whose anchor box
fits in bounds, and for which `grid.matches` holds — each exactly once; the
stride-by-`(IMX,IMY,IMZ)` visit combined with the `ishifts` enumeration
misses no valid anchor. -/
theorem full_rescan_exact (g : Grid) (rules : List Rule) (changes : List (Nat × Nat × Nat))
    (lmt : Int) (st : MatchState)
    (hdims : ∀ rule ∈ rules, 0 < rule.IMX ∧ 0 < rule.IMY ∧ 0 < rule.IMZ)
    (hlmt : lmt < 0) :
    ∀ m, countQuad (runScan g rules changes lmt st).matchList m
      = if isValidMatch g rules m = true then 1 else 0 := by
  intro m
  unfold runScan
  rw [if_neg (by omega : ¬ 0 ≤ lmt), fullRescan_matchList]
  exact countQuad_fullScanList hdims m

theorem full_rescan_exact_witness :
    (∀ rule ∈ [(⟨1, 1, 1, [1]⟩ : Rule)], 0 < rule.IMX ∧ 0 < rule.IMY ∧ 0 < rule.IMZ) ∧
    ((-1 : Int) < 0) ∧
    countQuad (runScan ⟨2, 1, 1, [0, 0]⟩ [⟨1, 1, 1, [1]⟩] [] (-1)
        ⟨[(9, 9, 9, 9)], [(7, 7)]⟩).matchList (0, 1, 0, 0) = 1 :=
  ⟨by decide, by decide, by
    rw [full_rescan_exact ⟨2, 1, 1, [0, 0]⟩ [⟨1, 1, 1, [1]⟩] [] (-1)
      ⟨[(9, 9, 9, 9)], [(7, 7)]⟩ (by decide) (by decide)]
    decide⟩

/-- C1 (counterexample to the claim as stated): an edit can invalidate an
existing match; the incremental rescan never removes it, so the raw match
multiset after the incremental rescan differs from the full rescan of the
same grid.  Grid `1×1×1`, one rule whose single input cell accepts only
value `0`; the pre-state is the exact full-rescan state of the old grid
(all invariants hold), the edit flips the cell to `1` and is logged. -/
theorem incremental_rescan_counterexample :
    ¬ ∀ m, countQuad (runScan ⟨1, 1, 1, [1]⟩ [⟨1, 1, 1, [1]⟩] [(0, 0, 0)] 0
          (runScan ⟨1, 1, 1, [0]⟩ [⟨1, 1, 1, [1]⟩] [] (-1) ⟨[], []⟩)).matchList m
        = countQuad (fullScanList ⟨1, 1, 1, [1]⟩ [⟨1, 1, 1, [1]⟩]) m :=
  fun h => absurd (h (0, 0, 0, 0)) (by decide)

/-- C1 (amended): after an incremental rescan (`lastMatchedTurn ≥ 0`,
scanning the logged changes) from an exact pre-edit matcher state, the
entries that still pass `grid.matches` on the edited grid — stale entries
are filtered lazily at consumption time — equal, as a multiset keyed by
`(r,x,y,z)`, the match set produced by a full rescan of the same grid
state. -/
theorem incremental_rescan_filtered_eq_full (MX MY MZ : Nat) (s s' : List Nat)
    (rules : List Rule) (changes : List (Nat × Nat × Nat)) (st0 : MatchState) (lmt : Int)
    (hlmt : 0 ≤ lmt)
    (hdims : ∀ rule ∈ rules, 0 < rule.IMX ∧ 0 < rule.IMY ∧ 0 < rule.IMZ)
    (hsound : ∀ m ∈ st0.matchList, isValidMatch ⟨MX, MY, MZ, s⟩ rules m = true)
    (hcomplete : ∀ r < rules.length, ∀ x < MX, ∀ y < MY, ∀ z < MZ,
        isValidMatch ⟨MX, MY, MZ, s⟩ rules (r, x, y, z) = true → (r, x, y, z) ∈ st0.matchList)
    (hnodup : st0.matchList.Nodup)
    (hmask1 : ∀ m ∈ st0.matchList, quadKey ⟨MX, MY, MZ, s⟩ m ∈ st0.mask)
    (hmask2 : ∀ p ∈ st0.mask, ∃ m ∈ st0.matchList, p = quadKey ⟨MX, MY, MZ, s⟩ m)
    (hchanges : ∀ x < MX, ∀ y < MY, ∀ z < MZ,
        gridAt ⟨MX, MY, MZ, s⟩ x y z ≠ gridAt ⟨MX, MY, MZ, s'⟩ x y z → (x, y, z) ∈ changes) :
    ∀ m, countQuad (((runScan ⟨MX, MY, MZ, s'⟩ rules changes lmt st0).matchList).filter
          (fun m' => Grid.matches ⟨MX, MY, MZ, s'⟩ (ruleAt rules m'.1) m'.2.1 m'.2.2.1 m'.2.2.2)) m
        = countQuad (fullScanList ⟨MX, MY, MZ, s'⟩ rules) m := by
  intro m
  unfold runScan
  rw [if_pos hlmt]
  exact incScan_filter_core MX MY MZ s s' rules changes st0 hdims hsound hcomplete hnodup
    hmask1 hmask2 hchanges m

theorem incremental_rescan_filtered_eq_full_witness :
    ((0 : Int) ≤ 0) ∧
    (∀ rule ∈ [(⟨1, 1, 1, [3]⟩ : Rule)], 0 < rule.IMX ∧ 0 < rule.IMY ∧ 0 < rule.IMZ) ∧
    (∀ m ∈ [((0, 0, 0, 0) : Nat × Nat × Nat × Nat)],
      isValidMatch ⟨1, 1, 1, [0]⟩ [⟨1, 1, 1, [3]⟩] m = true) ∧
    (∀ r, r < 1 → ∀ x, x < 1 → ∀ y, y < 1 → ∀ z, z < 1 →
      isValidMatch ⟨1, 1, 1, [0]⟩ [(⟨1, 1, 1, [3]⟩ : Rule)] (r, x, y, z) = true →
        (r, x, y, z) ∈ [((0, 0, 0, 0) : Nat × Nat × Nat × Nat)]) ∧
    countQuad (((runScan ⟨1, 1, 1, [1]⟩ [⟨1, 1, 1, [3]⟩] [(0, 0, 0)] 0
        ⟨[(0, 0, 0, 0)], [(0, 0)]⟩).matchList).filter
        (fun m' => Grid.matches ⟨1, 1, 1, [1]⟩ (ruleAt [⟨1, 1, 1, [3]⟩] m'.1)
          m'.2.1 m'.2.2.1 m'.2.2.2)) (0, 0, 0, 0)
      = countQuad (fullScanList ⟨1, 1, 1, [1]⟩ [⟨1, 1, 1, [3]⟩]) (0, 0, 0, 0) :=
  ⟨by decide, by decide, by decide,
    (by
      intro r hr x hx y hy z hz _
      obtain rfl : r = 0 := by omega
      obtain rfl : x = 0 := by omega
      obtain rfl : y = 0 := by omega
      obtain rfl : z = 0 := by omega
      decide),
    incremental_rescan_filtered_eq_full 1 1 1 [0] [1] [⟨1, 1, 1, [3]⟩] [(0, 0, 0)]
      ⟨[(0, 0, 0, 0)], [(0, 0)]⟩ 0 (by decide) (by decide) (by decide)
      (by
        intro r hr x hx y hy z hz _
        have hr' : r < 1 := by simpa using hr
        obtain rfl : r = 0 := by omega
        obtain rfl : x = 0 := by omega
        obtain rfl : y = 0 := by omega
        obtain rfl : z = 0 := by omega
        decide)
      (by decide) (by decide) (by decide)
      (by
        intro x hx y hy z hz _
        obtain rfl : x = 0 := by omega
        obtain rfl : y = 0 := by omega
        obtain rfl : z = 0 := by omega
        decide)
      (0, 0, 0, 0)⟩

/-- C4: if `steps > 0` and `counter >= steps` at entry, `run()` returns FAIL;
when `steps` is `0` (the default for a missing attribute, `parseInt || 0`),
the step-limit check never fires and `run()` proceeds with the rest of its
body regardless of `counter`. -/
theorem step_limit_fail (g : Grid) (rules : List Rule) (changes : List (Nat × Nat × Nat))
    (cf : Option (List Nat)) (bp : List (List Int)) (gen : Nat → SearchYield)
    (node : RuleNodeState) :
    (0 < node.steps ∧ node.steps ≤ (node.counter : Int) →
      runNode g rules changes cf bp gen node
        = ({ node with last := node.last.map fun _ => 0 }, RunState.FAIL, [])) ∧
    (node.steps = 0 →
      stepLimitReached node = false ∧
      runNode g rules changes cf bp gen node
        = runAfterLimit g rules changes cf bp gen
            { node with last := node.last.map fun _ => 0 }) ∧
    loadSteps none = 0 := by
  refine ⟨?_, ?_, rfl⟩
  · intro h
    have hc : stepLimitReached { node with last := node.last.map fun _ => 0 } = true := by
      unfold stepLimitReached
      exact decide_eq_true h
    unfold runNode
    dsimp only
    rw [if_pos hc]
  · intro h
    have hc : stepLimitReached node = false := by
      unfold stepLimitReached
      apply decide_eq_false
      rintro ⟨h1, -⟩
      omega
    refine ⟨hc, ?_⟩
    have hc2 : ¬ stepLimitReached { node with last := node.last.map fun _ => 0 } = true := by
      have hc3 : stepLimitReached { node with last := node.last.map fun _ => 0 } = false := hc
      rw [hc3]
      simp
    unfold runNode
    dsimp only
    rw [if_neg hc2]

theorem step_limit_fail_witness :
    (0 < (2 : Int) ∧ (2 : Int) ≤ ((3 : Nat) : Int)) ∧
    (runNode ⟨1, 1, 1, [0]⟩ [] [] none [] (fun _ => SearchYield.yielded 0)
      { steps := 2, counter := 3, last := [], hasObservations := false, search := false,
        futureComputed := false, future := [], potentials := none, searching := none,
        visited := 0, searchTries := 0, trajectory := none, matchState := ⟨[], []⟩,
        lastMatchedTurn := -1, fields := [] }).2.1 = RunState.FAIL :=
  ⟨by decide, by
    rw [(step_limit_fail ⟨1, 1, 1, [0]⟩ [] [] none [] (fun _ => SearchYield.yielded 0)
      { steps := 2, counter := 3, last := [], hasObservations := false, search := false,
        futureComputed := false, future := [], potentials := none, searching := none,
        visited := 0, searchTries := 0, trajectory := none, matchState := ⟨[], []⟩,
        lastMatchedTurn := -1, fields := [] }).1 (by decide)]⟩

/-- C5: for a node with observations, search disabled and `futureComputed`
false (and the step limit not reached): if the future-set computation
reports unsatisfiable, `run()` returns FAIL and `futureComputed` stays
false; otherwise `futureComputed` becomes true and the backward potentials
(the `backPot` oracle, evaluated on the pre-refresh state) are stored in
`potentials`, before any match refresh affects the outcome. -/
theorem observe_non_search_run (g : Grid) (rules : List Rule)
    (changes : List (Nat × Nat × Nat)) (cf : Option (List Nat)) (bp : List (List Int))
    (gen : Nat → SearchYield) (node : RuleNodeState)
    (hobs : node.hasObservations = true) (hfc : node.futureComputed = false)
    (hsearch : node.search = false) (hlimit : stepLimitReached node = false) :
    (cf = none →
      (runNode g rules changes cf bp gen node).2.1 = RunState.FAIL ∧
      (runNode g rules changes cf bp gen node).1.futureComputed = false) ∧
    (∀ f, cf = some f →
      (runNode g rules changes cf bp gen node).1.futureComputed = true ∧
      (runNode g rules changes cf bp gen node).1.potentials = some bp ∧
      (runNode g rules changes cf bp gen node).1.future = f) := by
  have hlim0 : ¬ stepLimitReached { node with last := node.last.map fun _ => 0 } = true := by
    have hc : stepLimitReached { node with last := node.last.map fun _ => 0 } = false := hlimit
    rw [hc]
    simp
  constructor
  · rintro rfl
    unfold runNode runAfterLimit
    dsimp only
    rw [if_neg hlim0, if_pos (show node.hasObservations = true ∧ node.futureComputed = false
      from ⟨hobs, hfc⟩), if_pos hsearch]
    exact ⟨rfl, hfc⟩
  · rintro f rfl
    unfold runNode runAfterLimit runMatchFields
    dsimp only
    rw [if_neg hlim0, if_pos (show node.hasObservations = true ∧ node.futureComputed = false
      from ⟨hobs, hfc⟩), if_pos hsearch]
    exact ⟨rfl, rfl, rfl⟩

theorem observe_non_search_run_witness :
    let node : RuleNodeState :=
      { steps := 0, counter := 0, last := [], hasObservations := true, search := false,
        futureComputed := false, future := [], potentials := none, searching := none,
        visited := 0, searchTries := 0, trajectory := none, matchState := ⟨[], []⟩,
        lastMatchedTurn := -1, fields := [] }
    (runNode ⟨1, 1, 1, [0]⟩ [] [] none [[3]] (fun _ => SearchYield.yielded 0) node).2.1
        = RunState.FAIL ∧
    (runNode ⟨1, 1, 1, [0]⟩ [] [] none [[3]] (fun _ => SearchYield.yielded 0) node).1.futureComputed
        = false :=
  (observe_non_search_run ⟨1, 1, 1, [0]⟩ [] [] none [[3]] (fun _ => SearchYield.yielded 0)
    { steps := 0, counter := 0, last := [], hasObservations := true, search := false,
      futureComputed := false, future := [], potentials := none, searching := none,
      visited := 0, searchTries := 0, trajectory := none, matchState := ⟨[], []⟩,
      lastMatchedTurn := -1, fields := [] }
    rfl rfl rfl rfl).1 rfl

/-- C6 (counterexample to the claim as stated): resuming an active search
coroutine, a single `run()` call makes one unconditional `next()` call plus
up to 256 in the loop — 257 in all, not at most 256: from cursor 0 the
coroutine is left at cursor 257. -/
theorem search_yield_interval_counterexample :
    (runNode ⟨1, 1, 1, [0]⟩ [] [] (some []) [] (fun _ => SearchYield.yielded 7)
      { steps := 0, counter := 0, last := [], hasObservations := true, search := true,
        futureComputed := false, future := [], potentials := none, searching := some 0,
        visited := 0, searchTries := 0, trajectory := none, matchState := ⟨[], []⟩,
        lastMatchedTurn := -1, fields := [] }).1.searching = some 257 ∧
    (runNode ⟨1, 1, 1, [0]⟩ [] [] (some []) [] (fun _ => SearchYield.yielded 7)
      { steps := 0, counter := 0, last := [], hasObservations := true, search := true,
        futureComputed := false, future := [], potentials := none, searching := some 0,
        visited := 0, searchTries := 0, trajectory := none, matchState := ⟨[], []⟩,
        lastMatchedTurn := -1, fields := [] }).2.1 = RunState.HALT ∧
    ¬(257 - 0 ≤ 256) :=
  ⟨by decide, by decide, by decide⟩

/-- C6 (amended): with an active search coroutine at cursor `k`, a single
`run()` call advances it by at most 257 `next()` calls (one unconditional
plus up to 256 loop iterations); if the coroutine is still not done, the
yielded integer progress payload is stored in `visited` and `run()` returns
HALT, leaving the coroutine cursor persisted for the next call. -/
theorem search_advance_halt_bound (g : Grid) (rules : List Rule)
    (changes : List (Nat × Nat × Nat)) (cf : Option (List Nat)) (bp : List (List Int))
    (gen : Nat → SearchYield) (node : RuleNodeState) (k k' : Nat) (n : Int)
    (hobs : node.hasObservations = true) (hfc : node.futureComputed = false)
    (hsearch : node.search = true) (hlimit : stepLimitReached node = false)
    (hact : node.searching = some k)
    (hadv : advanceSearch gen k = (k', SearchYield.yielded n)) :
    (runNode g rules changes cf bp gen node).2.1 = RunState.HALT ∧
    (runNode g rules changes cf bp gen node).1.searching = some k' ∧
    (runNode g rules changes cf bp gen node).1.visited = n ∧
    k' ≤ k + 257 := by
  have hb : k' ≤ k + 257 := by
    have h := advanceSearch_le gen k
    rw [hadv] at h
    exact h
  have hlim0 : ¬ stepLimitReached { node with last := node.last.map fun _ => 0 } = true := by
    have hc : stepLimitReached { node with last := node.last.map fun _ => 0 } = false := hlimit
    rw [hc]
    simp
  have hns : ¬ node.search = false := by
    rw [hsearch]
    simp
  have hrun : runNode g rules changes cf bp gen node
      = ({ node with last := node.last.map fun _ => 0, searching := some k', visited := n },
         RunState.HALT, []) := by
    unfold runNode runAfterLimit runSearchAdvance
    dsimp only
    rw [if_neg hlim0, if_pos (show node.hasObservations = true ∧ node.futureComputed = false
      from ⟨hobs, hfc⟩), if_neg hns, hact]
    dsimp only
    rw [hadv]
  exact ⟨by rw [hrun], by rw [hrun], by rw [hrun], hb⟩

theorem search_advance_halt_bound_witness :
    let node : RuleNodeState :=
      { steps := 0, counter := 0, last := [], hasObservations := true, search := true,
        futureComputed := false, future := [], potentials := none, searching := some 3,
        visited := 0, searchTries := 0, trajectory := none, matchState := ⟨[], []⟩,
        lastMatchedTurn := -1, fields := [] }
    (runNode ⟨1, 1, 1, [0]⟩ [] [] none [] (fun _ => SearchYield.yielded 5) node).2.1
        = RunState.HALT ∧ 260 ≤ 3 + 257 :=
  ⟨((search_advance_halt_bound ⟨1, 1, 1, [0]⟩ [] [] none [] (fun _ => SearchYield.yielded 5)
      { steps := 0, counter := 0, last := [], hasObservations := true, search := true,
        futureComputed := false, future := [], potentials := none, searching := some 3,
        visited := 0, searchTries := 0, trajectory := none, matchState := ⟨[], []⟩,
        lastMatchedTurn := -1, fields := [] }
      3 260 5 rfl rfl rfl rfl rfl (by decide))).1,
   ((search_advance_halt_bound ⟨1, 1, 1, [0]⟩ [] [] none [] (fun _ => SearchYield.yielded 5)
      { steps := 0, counter := 0, last := [], hasObservations := true, search := true,
        futureComputed := false, future := [], potentials := none, searching := some 3,
        visited := 0, searchTries := 0, trajectory := none, matchState := ⟨[], []⟩,
        lastMatchedTurn := -1, fields := [] }
      3 260 5 rfl rfl rfl rfl rfl (by decide))).2.2.2⟩

/-- C7: `run()` computes a field's potential only when the node's counter is
`0` (first run) or the field has `recompute` set; it returns FAIL if an
essential field's computation fails, and also FAIL if at least one field
was computed this call but none succeeded. -/
theorem fields_compute_policy (g : Grid) (rules : List Rule)
    (changes : List (Nat × Nat × Nat)) (cf : Option (List Nat)) (bp : List (List Int))
    (gen : Nat → SearchYield) (node : RuleNodeState) :
    (∀ c ∈ (runNode g rules changes cf bp gen node).2.2,
      ∃ f, node.fields.getD c none = some f ∧ (node.counter = 0 ∨ f.recompute = true)) ∧
    ((∃ c ∈ (runNode g rules changes cf bp gen node).2.2,
        ∃ f, node.fields.getD c none = some f ∧ f.essential = true ∧ f.success = false) →
      (runNode g rules changes cf bp gen node).2.1 = RunState.FAIL) ∧
    ((runNode g rules changes cf bp gen node).2.2 ≠ [] ∧
      (∀ c ∈ (runNode g rules changes cf bp gen node).2.2,
        ∀ f, node.fields.getD c none = some f → f.success = false) →
      (runNode g rules changes cf bp gen node).2.1 = RunState.FAIL) := by
  obtain ⟨nc, h1, h2, h3, h4⟩ := fieldsLoop_spec node.counter node.fields 0 false false []
  have hrf1 : (runFields node.counter node.fields).1 = nc := by
    unfold runFields
    rw [h1]
    rfl
  rcases runNode_fields_cases g rules changes cf bp gen node with hcase | ⟨hceq, hcfail⟩
  · rw [hcase]
    refine ⟨?_, ?_, ?_⟩
    · intro c hc
      cases hc
    · rintro ⟨c, hc, -⟩
      cases hc
    · rintro ⟨hne, -⟩
      exact absurd rfl hne
  · rw [hceq, hrf1]
    refine ⟨?_, ?_, ?_⟩
    · intro c hc
      obtain ⟨i, hi, hci, f, hf, he⟩ := h2 c hc
      refine ⟨f, ?_, he⟩
      rw [show c = i by omega]
      exact hf
    · rintro ⟨c, hc, f, hf, hfe, hfs⟩
      apply hcfail
      unfold runFields
      apply h3
      refine ⟨c, hc, f, ?_, hfe, hfs⟩
      simpa using hf
    · rintro ⟨hne, hall⟩
      apply hcfail
      unfold runFields
      apply h4
      refine ⟨rfl, Or.inr hne, ?_⟩
      intro d hd f hf
      exact hall d hd f (by simpa using hf)

theorem fields_compute_policy_witness :
    let node : RuleNodeState :=
      { steps := 0, counter := 0, last := [], hasObservations := false, search := false,
        futureComputed := false, future := [], potentials := some [[0]], searching := none,
        visited := 0, searchTries := 0, trajectory := none, matchState := ⟨[], []⟩,
        lastMatchedTurn := -1,
        fields := [some ⟨false, true, false⟩] }
    (∃ c ∈ (runNode ⟨1, 1, 1, [0]⟩ [] [] none [] (fun _ => SearchYield.yielded 0) node).2.2,
      ∃ f, node.fields.getD c none = some f ∧ f.essential = true ∧ f.success = false) ∧
    (runNode ⟨1, 1, 1, [0]⟩ [] [] none [] (fun _ => SearchYield.yielded 0) node).2.1
      = RunState.FAIL :=
  ⟨by decide,
    (fields_compute_policy ⟨1, 1, 1, [0]⟩ [] [] none [] (fun _ => SearchYield.yielded 0)
      { steps := 0, counter := 0, last := [], hasObservations := false, search := false,
        futureComputed := false, future := [], potentials := some [[0]], searching := none,
        visited := 0, searchTries := 0, trajectory := none, matchState := ⟨[], []⟩,
        lastMatchedTurn := -1,
        fields := [some ⟨false, true, false⟩] }).2.1 (by decide)⟩

/-- C8: when the search coroutine completes without producing a trajectory,
`run()` returns FAIL, `futureComputed` stays false and `searchTries` is
incremented; moreover `searchTries` is write-only: no operation of `run()`
reads it — the run state, the computed-fields log and every other output
field are unchanged when the entry value of `searchTries` changes. -/
theorem search_exhaustion_fail (g : Grid) (rules : List Rule)
    (changes : List (Nat × Nat × Nat)) (cf : Option (List Nat)) (bp : List (List Int))
    (gen : Nat → SearchYield) (node : RuleNodeState) (k : Nat) :
    (node.hasObservations = true → node.futureComputed = false → node.search = true →
      stepLimitReached node = false → node.searching = some k →
      (advanceSearch gen k).2 = SearchYield.done none →
      (runNode g rules changes cf bp gen node).2.1 = RunState.FAIL ∧
      (runNode g rules changes cf bp gen node).1.futureComputed = false ∧
      (runNode g rules changes cf bp gen node).1.searchTries = node.searchTries + 1 ∧
      (runNode g rules changes cf bp gen node).1.searching = none) ∧
    (∀ t : Nat,
      (runNode g rules changes cf bp gen { node with searchTries := t }).2
        = (runNode g rules changes cf bp gen node).2 ∧
      { (runNode g rules changes cf bp gen { node with searchTries := t }).1
          with searchTries := 0 }
        = { (runNode g rules changes cf bp gen node).1 with searchTries := 0 }) := by
  constructor
  · intro hobs hfc hsearch hlimit hact hdone
    have hlim0 : ¬ stepLimitReached { node with last := node.last.map fun _ => 0 } = true := by
      have hc : stepLimitReached { node with last := node.last.map fun _ => 0 } = false := hlimit
      rw [hc]
      simp
    have hns : ¬ node.search = false := by
      rw [hsearch]
      simp
    rcases hadv : advanceSearch gen k with ⟨k2, res⟩
    rw [hadv] at hdone
    dsimp only at hdone
    subst hdone
    have hrun : runNode g rules changes cf bp gen node
        = ({ node with
              last := node.last.map fun _ => 0
              searching := none
              trajectory := none
              searchTries := node.searchTries + 1 },
           RunState.FAIL, []) := by
      unfold runNode runAfterLimit runSearchAdvance
      dsimp only
      rw [if_neg hlim0, if_pos (show node.hasObservations = true ∧ node.futureComputed = false
        from ⟨hobs, hfc⟩), if_neg hns, hact]
      dsimp only
      rw [hadv]
    exact ⟨by rw [hrun], by rw [hrun]; exact hfc, by rw [hrun], by rw [hrun]⟩
  · intro t
    obtain ⟨steps, counter, lst, hobs, hsrch, hfc, fut, pot, srching, vis, tries, traj,
      mst, lmt, flds⟩ := node
    unfold runNode runAfterLimit runSearchAdvance runMatchFields stepLimitReached
    dsimp only
    by_cases h1 : (0 < steps ∧ steps ≤ (counter : Int))
    · simp only [h1, decide_True, if_true]
      exact ⟨rfl, rfl⟩
    · simp only [decide_eq_true_eq, if_neg h1]
      cases hobs <;> cases hfc <;> cases hsrch <;>
        simp only [Bool.false_eq_true, Bool.true_eq_false, false_and, and_false, true_and,
          and_true, if_false, if_true, ite_true, ite_false] <;>
        try exact ⟨rfl, rfl⟩
      all_goals cases cf with
      | none =>
        cases srching with
        | some k0 =>
          try dsimp only
          rcases hadv : advanceSearch gen k0 with ⟨k', res⟩
          cases res with
          | yielded n => exact ⟨rfl, rfl⟩
          | done o =>
            cases o with
            | none => exact ⟨rfl, rfl⟩
            | some traj2 => exact ⟨rfl, rfl⟩
        | none => exact ⟨rfl, rfl⟩
      | some f =>
        cases srching with
        | some k0 =>
          try dsimp only
          rcases hadv : advanceSearch gen k0 with ⟨k', res⟩
          cases res with
          | yielded n => exact ⟨rfl, rfl⟩
          | done o =>
            cases o with
            | none => exact ⟨rfl, rfl⟩
            | some traj2 => exact ⟨rfl, rfl⟩
        | none =>
          try dsimp only
          rcases hadv : advanceSearch gen 0 with ⟨k', res⟩
          cases res with
          | yielded n => exact ⟨rfl, rfl⟩
          | done o =>
            cases o with
            | none => exact ⟨rfl, rfl⟩
            | some traj2 => exact ⟨rfl, rfl⟩

theorem search_exhaustion_fail_witness :
    let node : RuleNodeState :=
      { steps := 0, counter := 0, last := [], hasObservations := true, search := true,
        futureComputed := false, future := [], potentials := none, searching := some 0,
        visited := 0, searchTries := 4, trajectory := none, matchState := ⟨[], []⟩,
        lastMatchedTurn := -1, fields := [] }
    (runNode ⟨1, 1, 1, [0]⟩ [] [] none [] (fun _ => SearchYield.done none) node).2.1
        = RunState.FAIL ∧
    (runNode ⟨1, 1, 1, [0]⟩ [] [] none [] (fun _ => SearchYield.done none) node).1.searchTries
        = 4 + 1 :=
  ⟨((search_exhaustion_fail ⟨1, 1, 1, [0]⟩ [] [] none [] (fun _ => SearchYield.done none)
      { steps := 0, counter := 0, last := [], hasObservations := true, search := true,
        futureComputed := false, future := [], potentials := none, searching := some 0,
        visited := 0, searchTries := 4, trajectory := none, matchState := ⟨[], []⟩,
        lastMatchedTurn := -1, fields := [] } 0).1
      rfl rfl rfl rfl rfl (by decide)).1,
   ((search_exhaustion_fail ⟨1, 1, 1, [0]⟩ [] [] none [] (fun _ => SearchYield.done none)
      { steps := 0, counter := 0, last := [], hasObservations := true, search := true,
        futureComputed := false, future := [], potentials := none, searching := some 0,
        visited := 0, searchTries := 4, trajectory := none, matchState := ⟨[], []⟩,
        lastMatchedTurn := -1, fields := [] } 0).1
      rfl rfl rfl rfl rfl (by decide)).2.2.1⟩

/-- C9 (counterexample to the claim as stated): `reset()` sets
`lastMatchedTurn` to `-1` and the following full rescan resets `matchCount`
to `0` without clearing `matchMask`, so a stale bit can survive with no
corresponding entry in the match list.  Run the node on a `1×1×1` grid of
`[0]` (one match recorded), change the grid to `[1]`, reset, run again: the
mask bit `(0,0)` is still set while the match list is empty, refuting the
if-and-only-if invariant at `r = 0`, `i = 0`. -/
theorem matchmask_iff_counterexample :
    ¬ (maskGet ((runNode ⟨1, 1, 1, [1]⟩ [⟨1, 1, 1, [1]⟩] [] none []
          (fun _ => SearchYield.yielded 0)
          ((runNode ⟨1, 1, 1, [0]⟩ [⟨1, 1, 1, [1]⟩] [] none []
            (fun _ => SearchYield.yielded 0)
            { steps := 0, counter := 0, last := [], hasObservations := false, search := false,
              futureComputed := false, future := [], potentials := none, searching := none,
              visited := 0, searchTries := 0, trajectory := none, matchState := ⟨[], []⟩,
              lastMatchedTurn := -1, fields := [] }).1.reset)).1.matchState) 0 0 = true
      ↔ ∃ x y z, (0, x, y, z) ∈ ((runNode ⟨1, 1, 1, [1]⟩ [⟨1, 1, 1, [1]⟩] [] none []
          (fun _ => SearchYield.yielded 0)
          ((runNode ⟨1, 1, 1, [0]⟩ [⟨1, 1, 1, [1]⟩] [] none []
            (fun _ => SearchYield.yielded 0)
            { steps := 0, counter := 0, last := [], hasObservations := false, search := false,
              futureComputed := false, future := [], potentials := none, searching := none,
              visited := 0, searchTries := 0, trajectory := none, matchState := ⟨[], []⟩,
              lastMatchedTurn := -1, fields := [] }).1.reset)).1.matchState).matchList
          ∧ 0 = cellIdx ⟨1, 1, 1, [1]⟩ x y z) := by
  intro h
  obtain ⟨x, y, z, hm, -⟩ := h.mp (by decide)
  have he : ((runNode ⟨1, 1, 1, [1]⟩ [⟨1, 1, 1, [1]⟩] [] none []
      (fun _ => SearchYield.yielded 0)
      ((runNode ⟨1, 1, 1, [0]⟩ [⟨1, 1, 1, [1]⟩] [] none []
        (fun _ => SearchYield.yielded 0)
        { steps := 0, counter := 0, last := [], hasObservations := false, search := false,
          futureComputed := false, future := [], potentials := none, searching := none,
          visited := 0, searchTries := 0, trajectory := none, matchState := ⟨[], []⟩,
          lastMatchedTurn := -1, fields := [] }).1.reset)).1.matchState).matchList = [] := by
    decide
  rw [he] at hm
  exact List.not_mem_nil _ hm

/-- C9 (amended): after every complete `run()` call, every entry `(r,x,y,z)`
of `matches[0..matchCount)` has its bit set in `matchMask[r]` at the cell
index of its anchor, provided this held at entry (`add` always sets the bit
it appends).  The converse is false: neither `reset()` nor the full rescan
clears `matchMask`, so stale bits may persist for anchors no longer
listed. -/
theorem matchmask_forward_invariant (g : Grid) (rules : List Rule)
    (changes : List (Nat × Nat × Nat)) (cf : Option (List Nat)) (bp : List (List Int))
    (gen : Nat → SearchYield) (node : RuleNodeState)
    (h : MaskCovers g node.matchState) :
    MaskCovers g ((runNode g rules changes cf bp gen node).1.matchState) := by
  unfold runNode runAfterLimit runSearchAdvance runMatchFields
  dsimp only
  split
  · exact h
  · split
    · split
      · cases cf with
        | none => exact h
        | some f => exact maskCovers_runScan h
      · cases hs : node.searching with
        | some k =>
          dsimp only
          rcases hadv : advanceSearch gen k with ⟨k', res⟩
          cases res with
          | yielded n => exact h
          | done o =>
            cases o with
            | none => exact h
            | some traj => exact maskCovers_runScan h
        | none =>
          dsimp only
          cases cf with
          | none => exact h
          | some f =>
            dsimp only
            rcases hadv : advanceSearch gen 0 with ⟨k', res⟩
            cases res with
            | yielded n => exact h
            | done o =>
              cases o with
              | none => exact h
              | some traj => exact maskCovers_runScan h
    · exact maskCovers_runScan h

theorem matchmask_forward_invariant_witness :
    let node : RuleNodeState :=
      { steps := 0, counter := 0, last := [], hasObservations := false, search := false,
        futureComputed := false, future := [], potentials := none, searching := none,
        visited := 0, searchTries := 0, trajectory := none,
        matchState := ⟨[(0, 0, 0, 0)], [(0, 0)]⟩, lastMatchedTurn := 2, fields := [] }
    MaskCovers ⟨1, 1, 1, [0]⟩ node.matchState ∧
    MaskCovers ⟨1, 1, 1, [0]⟩ ((runNode ⟨1, 1, 1, [0]⟩ [⟨1, 1, 1, [1]⟩] [(0, 0, 0)] none []
      (fun _ => SearchYield.yielded 0) node).1.matchState) :=
  ⟨by intro m hm; simpa [MaskCovers, quadKey, cellIdx] using (by decide :
      ∀ m ∈ [((0, 0, 0, 0) : Nat × Nat × Nat × Nat)],
        quadKey ⟨1, 1, 1, [0]⟩ m ∈ [((0, 0) : Nat × Nat)]) m hm,
   matchmask_forward_invariant ⟨1, 1, 1, [0]⟩ [⟨1, 1, 1, [1]⟩] [(0, 0, 0)] none []
    (fun _ => SearchYield.yielded 0)
    { steps := 0, counter := 0, last := [], hasObservations := false, search := false,
      futureComputed := false, future := [], potentials := none, searching := none,
      visited := 0, searchTries := 0, trajectory := none,
      matchState := ⟨[(0, 0, 0, 0)], [(0, 0)]⟩, lastMatchedTurn := 2, fields := [] }
    (by decide :
      ∀ m ∈ [((0, 0, 0, 0) : Nat × Nat × Nat × Nat)],
        quadKey ⟨1, 1, 1, [0]⟩ m ∈ [((0, 0) : Nat × Nat)])⟩

/-- C10: for a rewrite-node element with observe children, search mode is
enabled during load iff the `search` attribute is exactly the string
`"True"` (case-sensitive); any other value — including `"true"` — leaves
search disabled, in which case a `potentials` buffer is allocated (by the
field section or by the observe section) and the node uses the
backward-potential observation mode. -/
theorem observe_search_flag (attr : Option String) (pf : Bool) :
    ((loadObserve attr pf).search = true ↔ attr = some "True") ∧
    (attr = some "true" →
      (loadObserve attr pf).search = false ∧
      (loadObserve attr pf).potentialsAllocated = true) := by
  constructor
  · unfold loadObserve
    dsimp only
    exact ⟨of_decide_eq_true, decide_eq_true⟩
  · rintro rfl
    unfold loadObserve
    dsimp only
    have hfalse : decide ((some "true" : Option String) = some "True") = false :=
      decide_eq_false (by decide)
    rw [hfalse]
    exact ⟨rfl, rfl⟩

theorem observe_search_flag_witness :
    ((some "true" : Option String) = some "true") ∧
    (loadObserve (some "true") false).search = false ∧
    (loadObserve (some "true") false).potentialsAllocated = true :=
  ⟨rfl, (observe_search_flag (some "true") false).2 rfl⟩

/-- C2 (modelled from the spec: the interpreter is not among the given
sources): the snapshot sequence produced by running a program from a given
seed for a given step cap is a deterministic function of
`(program, seed, steps)` alone — in particular it does not depend on the
driver environment (render `speed`, frame `delay`, frame timing), and two
executions with equal inputs produce identical sequences. -/
theorem snapshot_sequence_deterministic (P : IpProgram) (seed steps : Nat)
    (speed1 delay1 : Nat) (ft1 : Nat → Nat) (speed2 delay2 : Nat) (ft2 : Nat → Nat) :
    (mainRun P seed steps speed1 delay1 ft1).1 = (mainRun P seed steps speed2 delay2 ft2).1 := by
  suffices h : ∀ fuel st rng rendered t1 t2,
      (mainLoop P speed1 delay1 ft1 fuel st rng rendered t1).1
        = (mainLoop P speed2 delay2 ft2 fuel st rng rendered t2).1 by
    exact h steps P.init seed 0 0 0
  intro fuel
  induction fuel with
  | zero => intro st rng rendered t1 t2; rfl
  | succ n ih =>
    intro st rng rendered t1 t2
    unfold mainLoop
    cases P.step st rng with
    | none => rfl
    | some v =>
      obtain ⟨⟨st', rng'⟩, snap⟩ := v
      dsimp only
      exact congrArg (List.cons snap) (ih st' rng' (rendered + 1) _ _)

end MarkovJunior
